import Mathlib

/-!
# AM2302 single-wire decoder (am2302.c): Lean model and properties

The driver keeps its state in two file-scope variables (`am2302_bit_ctr`,
`am2302_data[5]`) and in the Timer/Counter 1 and port D registers of the
ATmega32U4.  The embedding below makes that state an explicit record and turns
each interrupt handler and each public function into a function on it.

Conventions.
* Every register and every byte of `am2302_data` is stored as its bit pattern,
  a natural number (8 bits, `TCNT1` 16 bits).  Operations truncate explicitly.
* `am2302_data` is declared with plain `char`, whose signedness the C standard
  leaves to the implementation and the sources do not fix (avr-gcc: signed
  unless built with `-funsigned-char`, the setting of the LUFA build system the
  project is based on).  The only place where it matters is the integer
  promotion of the bytes in `am2302_get_result`; that function therefore takes
  the signedness as its first argument (`false` = unsigned, `true` = signed).
  Properties that do not depend on it are proved for both values.  The
  unpacking and checksum properties that do depend on it are proved for
  unsigned char, the setting under which the driver decodes ordinary readings;
  what a build with signed char would do instead is recorded in separate
  theorems.
* `int` is the 16-bit `int` of the target; promoted values are kept as 16-bit
  two's-complement patterns.
* `am2302_bit_ctr` is a `char` too, but it only takes the values 0..41, where
  the signedness is immaterial; it is a natural number here.
-/

namespace AM2302

/-! ## Register bits (avr/io.h for the ATmega32U4) -/

/-- Bit-value helper of avr-libc: the mask with only bit n set. -/
def BV (n : Nat) : Nat := 1 <<< n

/-- Input capture edge select, bit 6 of TCCR1B. -/
def ICES1 : Nat := 6
/-- Clock select bit 0 of TCCR1B (timer runs from the undivided clock). -/
def CS10 : Nat := 0
/-- Input capture interrupt enable, bit 5 of TIMSK1. -/
def ICIE1 : Nat := 5
/-- Overflow interrupt enable, bit 0 of TIMSK1. -/
def TOIE1 : Nat := 0
/-- Input capture flag, bit 5 of TIFR1. -/
def ICF1 : Nat := 5
/-- Overflow flag, bit 0 of TIFR1. -/
def TOV1 : Nat := 0

/-- The C idiom reg &= ~m on an 8-bit register. -/
def andNot8 (r m : Nat) : Nat := r &&& (0xff ^^^ m)

/-! ## State -/

/-- Result codes of am2302.h. -/
inductive am2302_result where
  | am2302_ok
  | am2302_ongoing
  | am2302_crc
  | am2302_timeout
deriving DecidableEq, Repr

/-- The five bytes of am2302_data, as bit patterns; field dN is am2302_data[N]. -/
structure Data where
  d0 : Nat
  d1 : Nat
  d2 : Nat
  d3 : Nat
  d4 : Nat
deriving DecidableEq, Repr

/-- Read am2302_data[i].  Indices above 4 are outside the array; the handlers
only index with am2302_bit_ctr / 8 under the guard am2302_bit_ctr < 40. -/
def Data.get (d : Data) (i : Nat) : Nat :=
  match i with
  | 0 => d.d0
  | 1 => d.d1
  | 2 => d.d2
  | 3 => d.d3
  | 4 => d.d4
  | _ => 0

/-- Write am2302_data[i] := v (no effect for an index outside the array). -/
def Data.set (d : Data) (i : Nat) (v : Nat) : Data :=
  match i with
  | 0 => { d with d0 := v }
  | 1 => { d with d1 := v }
  | 2 => { d with d2 := v }
  | 3 => { d with d3 := v }
  | 4 => { d with d4 := v }
  | _ => d

/-- Registers used by the driver together with its two static variables. -/
structure Mcu where
  TCCR1B : Nat
  TCNT1 : Nat
  TIMSK1 : Nat
  TIFR1 : Nat
  DDRD : Nat
  PORTD : Nat
  am2302_bit_ctr : Nat
  am2302_data : Data
deriving DecidableEq, Repr

/-! ## Interrupt handlers -/

/-- The three statements after the label disable_irqs (also used verbatim in
the overflow handler, in am2302_trigger_read and in am2302_init). -/
def disable_irqs (s : Mcu) : Mcu :=
  { s with
    TIMSK1 := andNot8 s.TIMSK1 (BV ICIE1 ||| BV TOIE1)
    TIFR1 := s.TIFR1 ||| BV ICF1 ||| BV TOV1
    TCCR1B := 0 }

/-- SIGNAL(TIMER1_CAPT_vect): the capture interrupt.  The handler reads the
counter (the width measured since the previous edge), clears it and acts on
the edge selected by ICES1. -/
def TIMER1_CAPT_vect (s : Mcu) : Mcu :=
  let cnt := s.TCNT1 % 65536
  let s1 : Mcu := { s with TCNT1 := 0 }
  if s1.TCCR1B &&& BV ICES1 ≠ 0 then
    { s1 with TCCR1B := andNot8 s1.TCCR1B (BV ICES1) }
  else
    let s2 : Mcu := { s1 with TCCR1B := s1.TCCR1B ||| BV ICES1 }
    let s3 : Mcu :=
      if s2.am2302_bit_ctr < 40 then
        let i := s2.am2302_bit_ctr / 8
        let s2a : Mcu := { s2 with am2302_data := s2.am2302_data.set i ((s2.am2302_data.get i <<< 1) % 256) }
        if cnt > 800 then
          { s2a with am2302_data := s2a.am2302_data.set i (s2a.am2302_data.get i ||| 1) }
        else s2a
      else s2
    if s3.am2302_bit_ctr = 0 then disable_irqs s3
    else { s3 with am2302_bit_ctr := s3.am2302_bit_ctr - 1 }

/-- SIGNAL(TIMER1_OVF_vect): the overflow interrupt, end of the start pulse
when the capture interrupt is not yet enabled, a timeout otherwise. -/
def TIMER1_OVF_vect (s : Mcu) : Mcu :=
  if s.TIMSK1 &&& BV ICIE1 = 0 then
    { s with
      TCNT1 := 0
      DDRD := andNot8 s.DDRD (BV 4)
      TIFR1 := s.TIFR1 ||| BV ICF1
      TIMSK1 := s.TIMSK1 ||| BV ICIE1 }
  else
    { disable_irqs s with TCNT1 := 0xffff }

/-! ## Public functions -/

/-- The function am2302_get_raw_data: the five bytes in receipt order and the
bit counter as return value. -/
def am2302_get_raw_data (s : Mcu) : Nat × List Nat :=
  (s.am2302_bit_ctr % 256, (List.range 5).map (fun i => s.am2302_data.get (5 - 1 - i)))

/-- The function am2302_trigger_read. -/
def am2302_trigger_read (s : Mcu) : Mcu :=
  let s1 := { s with am2302_bit_ctr := 41, am2302_data := ⟨0, 0, 0, 0, 0⟩ }
  let s2 := disable_irqs s1
  let s3 := { s2 with
    TCNT1 := (2 ^ 16 - 1280) % 65536
    TIFR1 := s2.TIFR1 ||| BV TOV1
    TIMSK1 := s2.TIMSK1 ||| BV TOIE1 }
  { s3 with DDRD := s3.DDRD ||| BV 4, TCCR1B := BV CS10 }

/-- The function am2302_init. -/
def am2302_init (s : Mcu) : Mcu :=
  let s1 := disable_irqs s
  { s1 with DDRD := andNot8 s1.DDRD (BV 4), PORTD := andNot8 s1.PORTD (BV 4) }

/-- Integer promotion of a plain char with bit pattern b to the 16-bit int of
the target, as a two's-complement pattern: sign extension when char is signed
and the top bit is set, the value itself otherwise. -/
def promote (charSigned : Bool) (b : Nat) : Nat :=
  if charSigned && decide (128 ≤ b) then 0xff00 + b else b

/-- Conversion of a 16-bit pattern to int16_t. -/
def toInt16 (v : Nat) : Int :=
  if v < 32768 then (v : Int) else (v : Int) - 65536

/-- Outcome of am2302_get_result: the return value and the contents of the
locations temp and rh point to after the call. -/
structure GetResult where
  result : am2302_result
  temp : Int
  rh : Nat
deriving DecidableEq, Repr

/-- The function am2302_get_result.  The arguments temp and rh are the
contents of the two output locations before the call. -/
def am2302_get_result (charSigned : Bool) (s : Mcu) (temp : Int) (rh : Nat) : GetResult :=
  if s.TCCR1B ≠ 0 then ⟨.am2302_ongoing, temp, rh⟩
  else if s.TCNT1 = 0xffff then ⟨.am2302_timeout, temp, rh⟩
  else
    let a4 := promote charSigned s.am2302_data.d4
    let a3 := promote charSigned s.am2302_data.d3
    let a2 := promote charSigned s.am2302_data.d2
    let a1 := promote charSigned s.am2302_data.d1
    let a0 := promote charSigned s.am2302_data.d0
    if ((a4 + a3 + a2 + a1) % 65536) &&& 0xff ≠ a0 then ⟨.am2302_crc, temp, rh⟩
    else
      let rh1 := ((a4 <<< 8) % 65536) ||| a3
      let val := ((a2 <<< 8) % 65536) ||| a1
      if val &&& 0x8000 ≠ 0 then
        let val1 := val &&& 0x8000
        ⟨.am2302_ok, toInt16 ((65536 - val1) % 65536), rh1⟩
      else
        ⟨.am2302_ok, toInt16 val, rh1⟩

/-! ## Events and runs -/

/-- What the hardware can deliver to the driver: a capture event on the
selected edge, with the counter value the handler will read, or an overflow. -/
inductive Event where
  | capture (cnt : Nat)
  | overflow
deriving DecidableEq, Repr

/-- One event: the hardware counter holds the measured width when the capture
handler starts. -/
def step (s : Mcu) (e : Event) : Mcu :=
  match e with
  | .capture cnt => TIMER1_CAPT_vect { s with TCNT1 := cnt }
  | .overflow => TIMER1_OVF_vect s

/-- A sequence of events, handled one after the other. -/
def run (s : Mcu) (es : List Event) : Mcu := es.foldl step s

/-! ## Sensor frames as event sequences -/

/-- Width in ticks of the high period that carries a bit: nominally 28 us, 448
ticks, for a 0 and 70 us, 1120 ticks, for a 1. -/
def bitWidth (b : Bool) : Nat := if b then 1120 else 448

/-- Bit i of x. -/
def bitOf (x i : Nat) : Bool := decide (x / 2 ^ i % 2 = 1)

/-- The eight bits of a byte in transmission order, most significant first. -/
def byteBits (x : Nat) : List Bool :=
  [bitOf x 7, bitOf x 6, bitOf x 5, bitOf x 4, bitOf x 3, bitOf x 2, bitOf x 1, bitOf x 0]

/-- The bits of a sequence of bytes, first byte first. -/
def frameBits : List Nat → List Bool
  | [] => []
  | x :: xs => byteBits x ++ frameBits xs

/-- The five bytes the sensor transmits for a humidity h and a non-negative
temperature t: high and low byte of each, then their sum truncated to 8 bits. -/
def frame (h t : Nat) : List Nat :=
  [h >>> 8, h &&& 0xff, t >>> 8, t &&& 0xff,
    ((h >>> 8) + (h &&& 0xff) + (t >>> 8) + (t &&& 0xff)) % 256]

/-- One pulse pair per bit: the i-th low pulse has measured width lo i, the
high period after it the width that encodes the bit. -/
def bitPulses (lo : Nat → Nat) : Nat → List Bool → List (Nat × Nat)
  | _, [] => []
  | i, b :: bs => (lo i, bitWidth b) :: bitPulses lo (i + 1) bs

/-- The capture events of a train of pulses: for each pair a rising edge (the
counter holds the width of the low pulse) and then a falling edge (the counter
holds the width of the high period). -/
def edges : List (Nat × Nat) → List Event
  | [] => []
  | p :: ps => .capture p.1 :: .capture p.2 :: edges ps

/-- The events of one conversion, as seen after am2302_trigger_read: the
overflow that ends the start pulse, the falling edge where the sensor starts
its acknowledge (any width), the rising edge that ends the acknowledge low
pulse (any width), the falling edge after the 80 us = 1280 tick acknowledge
high period, and one pulse pair per payload bit. -/
def conversion (ack0 ackLow : Nat) (lo : Nat → Nat) (bytes : List Nat) : List Event :=
  .overflow :: .capture ack0 :: .capture ackLow :: .capture 1280 ::
    edges (bitPulses lo 0 (frameBits bytes))

/-- The decision of the capture handler on a measured width. -/
def classify (w : Nat) : Bool := decide (w % 65536 > 800)

/-- What the capture handler does to the buffer on a falling edge when the bit
counter is ctr < 40 and the width was classified as b. -/
def storeBit (d : Data) (ctr : Nat) (b : Bool) : Data :=
  let i := ctr / 8
  let d1 := d.set i ((d.get i <<< 1) % 256)
  if b then d1.set i (d1.get i ||| 1) else d1

/-- The value of a buffer byte after a left shift by one with the bit b moved
in at the bottom. -/
def shiftIn (x : Nat) (b : Bool) : Nat := (2 * x + b.toNat) % 256

/-- Successive storeBit for a list of bits, the bit counter counting down. -/
def storeBits (d : Data) : Nat → List Bool → Data
  | _, [] => d
  | ctr, b :: bs => storeBits (storeBit d ctr b) (ctr - 1) bs

/-- Pairs up the measured widths of successive capture events that start with
a rising edge: (width at the rising edge, width at the falling edge). -/
def pairUp : List Nat → List (Nat × Nat)
  | l :: h :: rest => (l, h) :: pairUp rest
  | _ => []

/-! ## Events as the hardware delivers them -/

/-- Whether the hardware delivers the event in state s: the timer must be
running and the interrupt of the event must be enabled in TIMSK1. -/
def fires (s : Mcu) (e : Event) : Bool :=
  match e with
  | .capture _ => decide (s.TCCR1B ≠ 0) && decide (s.TIMSK1 &&& BV ICIE1 ≠ 0)
  | .overflow => decide (s.TCCR1B ≠ 0) && decide (s.TIMSK1 &&& BV TOIE1 ≠ 0)

/-- One event under that gating: handled if it fires, without effect
otherwise. -/
def gstep (s : Mcu) (e : Event) : Mcu := if fires s e then step s e else s

/-- The payload bit an event stores, if any: the classified width of a capture
that fires on a falling edge while the bit counter is below 40. -/
def storedBy (s : Mcu) (e : Event) : List Bool :=
  match e with
  | .capture w =>
    if fires s (.capture w) && decide (s.TCCR1B &&& BV ICES1 = 0)
        && decide (s.am2302_bit_ctr < 40) then [classify w] else []
  | .overflow => []

/-- A gated run that also records, in order, the payload bits stored since the
trigger. -/
def grun (s : Mcu) (t : List Bool) : List Event → Mcu × List Bool
  | [] => (s, t)
  | e :: es => grun (gstep s e) (t ++ storedBy s e) es

/-- The four phases of a conversion, as an invariant of gated runs from the
trigger: driving the start pulse, listening, done, timed out.  The list t is
the record of the payload bits stored so far. -/
def Phase (s : Mcu) (t : List Bool) : Prop :=
  (s.TCCR1B = 1 ∧ s.TIMSK1 &&& BV ICIE1 = 0 ∧ s.TIMSK1 &&& BV TOIE1 ≠ 0 ∧
    s.am2302_bit_ctr = 41 ∧ t = [] ∧ s.am2302_data = ⟨0, 0, 0, 0, 0⟩) ∨
  ((s.TCCR1B = 1 ∨ s.TCCR1B = 65) ∧ s.TIMSK1 &&& BV ICIE1 ≠ 0 ∧ s.TIMSK1 &&& BV TOIE1 ≠ 0 ∧
    s.am2302_bit_ctr ≤ 41 ∧ t.length = 39 - s.am2302_bit_ctr ∧
    s.am2302_data = storeBits ⟨0, 0, 0, 0, 0⟩ 39 t) ∨
  (s.TCCR1B = 0 ∧ s.TCNT1 = 0 ∧ s.TIMSK1 &&& BV ICIE1 = 0 ∧ s.TIMSK1 &&& BV TOIE1 = 0 ∧
    s.am2302_bit_ctr = 0 ∧ t.length = 40 ∧ s.am2302_data = storeBits ⟨0, 0, 0, 0, 0⟩ 39 t) ∨
  (s.TCCR1B = 0 ∧ s.TCNT1 = 0xffff ∧ s.TIMSK1 &&& BV ICIE1 = 0 ∧ s.TIMSK1 &&& BV TOIE1 = 0)

/-! ## Register facts -/

theorem andNot8_irqs_capt (m : Nat) : andNot8 m (BV ICIE1 ||| BV TOIE1) &&& BV ICIE1 = 0 := by
  unfold andNot8
  rw [Nat.and_assoc]
  have h : (0xff ^^^ (BV ICIE1 ||| BV TOIE1)) &&& BV ICIE1 = 0 := by decide
  rw [h, Nat.and_zero]

theorem andNot8_irqs_ovf (m : Nat) : andNot8 m (BV ICIE1 ||| BV TOIE1) &&& BV TOIE1 = 0 := by
  unfold andNot8
  rw [Nat.and_assoc]
  have h : (0xff ^^^ (BV ICIE1 ||| BV TOIE1)) &&& BV TOIE1 = 0 := by decide
  rw [h, Nat.and_zero]

/-! ## am2302_get_result: the two early exits -/

theorem get_result_of_running (charSigned : Bool) (s : Mcu) (temp : Int) (rh : Nat)
    (hrun : s.TCCR1B ≠ 0) :
    am2302_get_result charSigned s temp rh = ⟨.am2302_ongoing, temp, rh⟩ := by
  simp [am2302_get_result, hrun]

theorem get_result_of_sentinel (charSigned : Bool) (s : Mcu) (temp : Int) (rh : Nat)
    (hstop : s.TCCR1B = 0) (hsent : s.TCNT1 = 0xffff) :
    am2302_get_result charSigned s temp rh = ⟨.am2302_timeout, temp, rh⟩ := by
  simp [am2302_get_result, hstop, hsent]

/-- C7.  While the timer is running (TCCR1B is not 0) am2302_get_result returns
am2302_ongoing and leaves both output locations alone, whatever the buffer,
the bit counter and the counter register (0xFFFF included) hold, and whatever
the signedness of char. -/
theorem get_result_ongoing (charSigned : Bool) (s : Mcu) (temp : Int) (rh : Nat)
    (hrun : s.TCCR1B ≠ 0) :
    am2302_get_result charSigned s temp rh = ⟨.am2302_ongoing, temp, rh⟩ :=
  get_result_of_running charSigned s temp rh hrun

theorem get_result_ongoing_witness :
    (⟨1, 0xffff, 0, 0, 0, 0, 17, ⟨0x76, 0xE7, 0x00, 0x8D, 0x02⟩⟩ : Mcu).TCCR1B ≠ 0 ∧
    am2302_get_result true ⟨1, 0xffff, 0, 0, 0, 0, 17, ⟨0x76, 0xE7, 0x00, 0x8D, 0x02⟩⟩ 5 7
      = ⟨.am2302_ongoing, 5, 7⟩ :=
  ⟨by decide, get_result_ongoing true _ 5 7 (by decide)⟩

/-- C6.  With the timer stopped (TCCR1B = 0) and the counter at the sentinel
0xFFFF, am2302_get_result returns am2302_timeout for every buffer content and
every value of the bit counter; the outputs are not written. -/
theorem get_result_timeout (charSigned : Bool) (s : Mcu) (temp : Int) (rh : Nat)
    (hstop : s.TCCR1B = 0) (hsent : s.TCNT1 = 0xffff) :
    am2302_get_result charSigned s temp rh = ⟨.am2302_timeout, temp, rh⟩ :=
  get_result_of_sentinel charSigned s temp rh hstop hsent

theorem get_result_timeout_witness :
    (⟨0, 0xffff, 0, 0, 0, 0, 23, ⟨0x76, 0xE7, 0x00, 0x8D, 0x02⟩⟩ : Mcu).TCCR1B = 0 ∧
    am2302_get_result false ⟨0, 0xffff, 0, 0, 0, 0, 23, ⟨0x76, 0xE7, 0x00, 0x8D, 0x02⟩⟩ 5 7
      = ⟨.am2302_timeout, 5, 7⟩ :=
  ⟨rfl, get_result_timeout false _ 5 7 rfl rfl⟩

/-- C8.  If am2302_get_result returns am2302_ongoing, am2302_crc or
am2302_timeout, the locations temp and rh hold after the call what they held
before it. -/
theorem get_result_outputs_untouched (charSigned : Bool) (s : Mcu) (temp : Int) (rh : Nat)
    (hres : (am2302_get_result charSigned s temp rh).result = .am2302_ongoing ∨
            (am2302_get_result charSigned s temp rh).result = .am2302_crc ∨
            (am2302_get_result charSigned s temp rh).result = .am2302_timeout) :
    (am2302_get_result charSigned s temp rh).temp = temp ∧
    (am2302_get_result charSigned s temp rh).rh = rh := by
  simp only [am2302_get_result] at hres ⊢
  by_cases h1 : s.TCCR1B ≠ 0
  · simp [h1]
  · by_cases h2 : s.TCNT1 = 0xffff
    · simp [h1, h2]
    · simp only [h1, h2, if_false] at hres ⊢
      split
      · simp
      · rename_i h3
        rw [if_neg h3] at hres
        split at hres <;> simp at hres

theorem get_result_outputs_untouched_witness :
    (am2302_get_result true ⟨0, 0, 0, 0, 0, 0, 0, ⟨0x77, 0xE7, 0x00, 0x8D, 0x02⟩⟩ 5 7).temp = 5 ∧
    (am2302_get_result true ⟨0, 0, 0, 0, 0, 0, 0, ⟨0x77, 0xE7, 0x00, 0x8D, 0x02⟩⟩ 5 7).rh = 7 :=
  get_result_outputs_untouched true _ 5 7 (Or.inr (Or.inl (by decide)))

/-! ## The overflow handler as timeout -/

/-- C9.  In every state in which the capture interrupt is enabled (ICIE1 set
in TIMSK1: the decoder is listening), the overflow handler clears both
interrupt enables, stops the timer and leaves 0xFFFF in the counter, so that
am2302_get_result afterwards returns am2302_timeout (hence not am2302_ok)
without writing its outputs; the bit counter and the buffer are untouched. -/
theorem overflow_while_listening_is_timeout (s : Mcu) (harmed : s.TIMSK1 &&& BV ICIE1 ≠ 0) :
    (TIMER1_OVF_vect s).TIMSK1 &&& BV ICIE1 = 0 ∧
    (TIMER1_OVF_vect s).TIMSK1 &&& BV TOIE1 = 0 ∧
    (TIMER1_OVF_vect s).TCCR1B = 0 ∧
    (TIMER1_OVF_vect s).TCNT1 = 0xffff ∧
    (∀ (charSigned : Bool) (temp : Int) (rh : Nat),
      am2302_get_result charSigned (TIMER1_OVF_vect s) temp rh = ⟨.am2302_timeout, temp, rh⟩) ∧
    (TIMER1_OVF_vect s).am2302_bit_ctr = s.am2302_bit_ctr ∧
    (TIMER1_OVF_vect s).am2302_data = s.am2302_data := by
  have hs : TIMER1_OVF_vect s = { disable_irqs s with TCNT1 := 0xffff } := by
    unfold TIMER1_OVF_vect
    rw [if_neg harmed]
  rw [hs]
  refine ⟨andNot8_irqs_capt _, andNot8_irqs_ovf _, rfl, rfl, ?_, rfl, rfl⟩
  intro charSigned temp rh
  exact get_result_of_sentinel charSigned _ temp rh rfl rfl

theorem overflow_while_listening_is_timeout_witness :
    am2302_get_result true
      (TIMER1_OVF_vect ⟨65, 300, 0x21, 0, 0, 0, 17, ⟨0, 0, 0x0e, 0x8D, 0x02⟩⟩) 5 7
      = ⟨.am2302_timeout, 5, 7⟩ :=
  (overflow_while_listening_is_timeout
    ⟨65, 300, 0x21, 0, 0, 0, 17, ⟨0, 0, 0x0e, 0x8D, 0x02⟩⟩ (by decide)).2.2.2.2.1 true 5 7

/-! ## The bit counter -/

theorem capt_bit_ctr_le (s : Mcu) : (TIMER1_CAPT_vect s).am2302_bit_ctr ≤ s.am2302_bit_ctr := by
  simp only [TIMER1_CAPT_vect, disable_irqs]
  split_ifs <;> simp

theorem capt_falling_bit_ctr (s : Mcu) (hfall : s.TCCR1B &&& BV ICES1 = 0) :
    (TIMER1_CAPT_vect s).am2302_bit_ctr = s.am2302_bit_ctr - 1 := by
  simp only [TIMER1_CAPT_vect, disable_irqs]
  split_ifs <;> simp_all

theorem capt_rising_bit_ctr (s : Mcu) (hrise : s.TCCR1B &&& BV ICES1 ≠ 0) :
    (TIMER1_CAPT_vect s).am2302_bit_ctr = s.am2302_bit_ctr := by
  simp only [TIMER1_CAPT_vect]
  rw [if_pos hrise]

theorem ovf_bit_ctr (s : Mcu) : (TIMER1_OVF_vect s).am2302_bit_ctr = s.am2302_bit_ctr := by
  simp only [TIMER1_OVF_vect, disable_irqs]
  split_ifs <;> rfl

theorem step_bit_ctr_le (s : Mcu) (e : Event) : (step s e).am2302_bit_ctr ≤ s.am2302_bit_ctr := by
  cases e with
  | capture cnt => exact capt_bit_ctr_le _
  | overflow => exact Nat.le_of_eq (ovf_bit_ctr s)

theorem run_bit_ctr_le (es : List Event) (s : Mcu) :
    (run s es).am2302_bit_ctr ≤ s.am2302_bit_ctr := by
  induction es generalizing s with
  | nil => exact Nat.le_refl _
  | cons e es ih => exact Nat.le_trans (ih (step s e)) (step_bit_ctr_le s e)

/-- C10.  The bit counter: (1) in every state reached from the state left by
am2302_trigger_read through any sequence of capture and overflow events it is
at most 41 (and, being a count, at least 0); (2) no event increases it, from
any state; (3) a capture event on a falling edge (ICES1 clear) leaves it at 0
if it is 0 and otherwise decrements it by exactly one; a capture on a rising
edge and an overflow leave it unchanged; (4) am2302_trigger_read sets it to 41
and am2302_init does not touch it, so nothing else brings it back to 41. -/
theorem bit_ctr_invariant :
    (∀ (s0 : Mcu) (es : List Event), (run (am2302_trigger_read s0) es).am2302_bit_ctr ≤ 41) ∧
    (∀ (s : Mcu) (e : Event), (step s e).am2302_bit_ctr ≤ s.am2302_bit_ctr) ∧
    (∀ (s : Mcu) (cnt : Nat), s.TCCR1B &&& BV ICES1 = 0 →
      (step s (.capture cnt)).am2302_bit_ctr
        = if s.am2302_bit_ctr = 0 then 0 else s.am2302_bit_ctr - 1) ∧
    (∀ (s : Mcu) (cnt : Nat), s.TCCR1B &&& BV ICES1 ≠ 0 →
      (step s (.capture cnt)).am2302_bit_ctr = s.am2302_bit_ctr) ∧
    (∀ s : Mcu, (step s .overflow).am2302_bit_ctr = s.am2302_bit_ctr) ∧
    (∀ s : Mcu, (am2302_trigger_read s).am2302_bit_ctr = 41) ∧
    (∀ s : Mcu, (am2302_init s).am2302_bit_ctr = s.am2302_bit_ctr) := by
  refine ⟨?_, step_bit_ctr_le, ?_, ?_, ovf_bit_ctr, fun _ => rfl, fun _ => rfl⟩
  · intro s0 es
    exact run_bit_ctr_le es (am2302_trigger_read s0)
  · intro s cnt hfall
    have h := capt_falling_bit_ctr { s with TCNT1 := cnt } hfall
    simp only [step]
    rw [h]
    split_ifs with h0
    · simp [h0]
    · rfl
  · intro s cnt hrise
    exact capt_rising_bit_ctr { s with TCNT1 := cnt } hrise

theorem bit_ctr_invariant_witness :
    (step ⟨1, 0, 0x21, 0, 0, 0, 17, ⟨0, 0, 0x0e, 0x8D, 0x02⟩⟩ (.capture 1120)).am2302_bit_ctr
      = if (17 : Nat) = 0 then 0 else 17 - 1 :=
  bit_ctr_invariant.2.2.1 ⟨1, 0, 0x21, 0, 0, 0, 17, ⟨0, 0, 0x0e, 0x8D, 0x02⟩⟩ 1120 (by decide)

/-! ## Arithmetic of am2302_get_result -/

theorem promote_spec (charSigned : Bool) (b : Nat) (hb : b < 256) :
    promote charSigned b % 256 = b ∧ promote charSigned b < 65536 ∧
    (promote charSigned b = b ∨ (charSigned = true ∧ 128 ≤ b ∧ promote charSigned b = 0xff00 + b)) := by
  unfold promote
  cases charSigned <;> by_cases h : 128 ≤ b <;> simp [h] <;> omega

theorem promote_unsigned (b : Nat) : promote false b = b := by
  simp [promote]

theorem promote_small (charSigned : Bool) (b : Nat) (hb : b < 128) : promote charSigned b = b := by
  have h : ¬ 128 ≤ b := by omega
  simp [promote, h]

theorem and_0xff (x : Nat) : x &&& 0xff = x % 256 :=
  Nat.and_pow_two_sub_one_eq_mod x 8

theorem and_0x8000 (x : Nat) (hx : x < 65536) :
    x &&& 0x8000 = if x < 32768 then 0 else 32768 := by
  have h := Nat.and_two_pow x 15
  rw [Nat.testBit_to_div_mod] at h
  have e : (0x8000 : Nat) = 2 ^ 15 := by norm_num
  rw [e, h]
  by_cases hlt : x < 32768
  · simp [hlt]
    omega
  · simp [hlt]
    omega

theorem shl8_or (x y : Nat) (hy : y < 256) :
    ((x <<< 8) % 65536) ||| y = (x % 256) * 256 + y := by
  have e : (x <<< 8) % 65536 = 2 ^ 8 * (x % 256) := by
    rw [Nat.shiftLeft_eq]
    omega
  rw [e, ← Nat.mul_add_lt_is_or (by omega) (x % 256)]
  omega

theorem checksum_term (charSigned : Bool) (d4 d3 d2 d1 : Nat)
    (h4 : d4 < 256) (h3 : d3 < 256) (h2 : d2 < 256) (h1 : d1 < 256) :
    ((promote charSigned d4 + promote charSigned d3 + promote charSigned d2
        + promote charSigned d1) % 65536) &&& 0xff = (d4 + d3 + d2 + d1) % 256 := by
  rw [and_0xff]
  have p4 := (promote_spec charSigned d4 h4).1
  have p3 := (promote_spec charSigned d3 h3).1
  have p2 := (promote_spec charSigned d2 h2).1
  have p1 := (promote_spec charSigned d1 h1).1
  omega

/-- With the timer stopped and no timeout flagged, a checksum mismatch (as the
code computes it, against the promoted checksum byte) gives am2302_crc. -/
theorem get_result_of_mismatch (charSigned : Bool) (s : Mcu) (temp : Int) (rh : Nat)
    (hstop : s.TCCR1B = 0) (hcnt : s.TCNT1 ≠ 0xffff)
    (h4 : s.am2302_data.d4 < 256) (h3 : s.am2302_data.d3 < 256)
    (h2 : s.am2302_data.d2 < 256) (h1 : s.am2302_data.d1 < 256)
    (hsum : (s.am2302_data.d4 + s.am2302_data.d3 + s.am2302_data.d2 + s.am2302_data.d1) % 256
      ≠ promote charSigned s.am2302_data.d0) :
    am2302_get_result charSigned s temp rh = ⟨.am2302_crc, temp, rh⟩ := by
  simp only [am2302_get_result]
  rw [if_neg (by simpa using hstop), if_neg hcnt, checksum_term charSigned _ _ _ _ h4 h3 h2 h1,
    if_pos hsum]

/-- With the timer stopped, no timeout flagged and the checksum comparison of
the code passing, the result is am2302_ok with the unpacked values. -/
theorem get_result_of_match (charSigned : Bool) (s : Mcu) (temp : Int) (rh : Nat)
    (hstop : s.TCCR1B = 0) (hcnt : s.TCNT1 ≠ 0xffff)
    (h4 : s.am2302_data.d4 < 256) (h3 : s.am2302_data.d3 < 256)
    (h2 : s.am2302_data.d2 < 256) (h1 : s.am2302_data.d1 < 256)
    (hsum : (s.am2302_data.d4 + s.am2302_data.d3 + s.am2302_data.d2 + s.am2302_data.d1) % 256
      = promote charSigned s.am2302_data.d0) :
    am2302_get_result charSigned s temp rh =
      if (((promote charSigned s.am2302_data.d2 <<< 8) % 65536)
            ||| promote charSigned s.am2302_data.d1) &&& 0x8000 ≠ 0 then
        ⟨.am2302_ok,
          toInt16 ((65536 - ((((promote charSigned s.am2302_data.d2 <<< 8) % 65536)
            ||| promote charSigned s.am2302_data.d1) &&& 0x8000)) % 65536),
          ((promote charSigned s.am2302_data.d4 <<< 8) % 65536)
            ||| promote charSigned s.am2302_data.d3⟩
      else
        ⟨.am2302_ok,
          toInt16 (((promote charSigned s.am2302_data.d2 <<< 8) % 65536)
            ||| promote charSigned s.am2302_data.d1),
          ((promote charSigned s.am2302_data.d4 <<< 8) % 65536)
            ||| promote charSigned s.am2302_data.d3⟩ := by
  simp only [am2302_get_result]
  rw [if_neg (by simpa using hstop), if_neg hcnt, checksum_term charSigned _ _ _ _ h4 h3 h2 h1,
    if_neg (by simpa using hsum)]

/-! ## Checksum decision -/

theorem get_result_of_bad_sum (charSigned : Bool) (s : Mcu) (temp : Int) (rh : Nat)
    (hstop : s.TCCR1B = 0) (hcnt : s.TCNT1 ≠ 0xffff)
    (h4 : s.am2302_data.d4 < 256) (h3 : s.am2302_data.d3 < 256)
    (h2 : s.am2302_data.d2 < 256) (h1 : s.am2302_data.d1 < 256) (h0 : s.am2302_data.d0 < 256)
    (hsum : (s.am2302_data.d4 + s.am2302_data.d3 + s.am2302_data.d2 + s.am2302_data.d1) % 256
      ≠ s.am2302_data.d0) :
    am2302_get_result charSigned s temp rh = ⟨.am2302_crc, temp, rh⟩ := by
  apply get_result_of_mismatch charSigned s temp rh hstop hcnt h4 h3 h2 h1
  rcases (promote_spec charSigned s.am2302_data.d0 h0).2.2 with h | ⟨_, _, h⟩ <;> rw [h] <;> omega

/-- With unsigned char the checksum test is exactly the comparison of the byte
values: am2302_crc if and only if the sum of bytes 4..1 modulo 256 differs
from byte 0, am2302_ok otherwise. -/
theorem get_result_crc_iff_unsigned (s : Mcu) (temp : Int) (rh : Nat)
    (hstop : s.TCCR1B = 0) (hcnt : s.TCNT1 ≠ 0xffff)
    (h4 : s.am2302_data.d4 < 256) (h3 : s.am2302_data.d3 < 256)
    (h2 : s.am2302_data.d2 < 256) (h1 : s.am2302_data.d1 < 256) :
    ((am2302_get_result false s temp rh).result = .am2302_crc ↔
      (s.am2302_data.d4 + s.am2302_data.d3 + s.am2302_data.d2 + s.am2302_data.d1) % 256
        ≠ s.am2302_data.d0) ∧
    ((am2302_get_result false s temp rh).result = .am2302_ok ↔
      (s.am2302_data.d4 + s.am2302_data.d3 + s.am2302_data.d2 + s.am2302_data.d1) % 256
        = s.am2302_data.d0) := by
  by_cases hsum : (s.am2302_data.d4 + s.am2302_data.d3 + s.am2302_data.d2 + s.am2302_data.d1) % 256
      = s.am2302_data.d0
  · have hm := get_result_of_match false s temp rh hstop hcnt h4 h3 h2 h1
      (by rw [promote_unsigned]; exact hsum)
    rw [hm]
    split <;> simp [hsum]
  · have hm := get_result_of_mismatch false s temp rh hstop hcnt h4 h3 h2 h1
      (by rw [promote_unsigned]; exact hsum)
    rw [hm]
    simp [hsum]

/-- With signed char a checksum byte of 0x80 or above is promoted to a
negative int and never equals the masked sum: am2302_crc if and only if the
sum differs from byte 0 or byte 0 is at least 0x80. -/
theorem get_result_crc_iff_signed (s : Mcu) (temp : Int) (rh : Nat)
    (hstop : s.TCCR1B = 0) (hcnt : s.TCNT1 ≠ 0xffff)
    (h4 : s.am2302_data.d4 < 256) (h3 : s.am2302_data.d3 < 256)
    (h2 : s.am2302_data.d2 < 256) (h1 : s.am2302_data.d1 < 256) (h0 : s.am2302_data.d0 < 256) :
    (am2302_get_result true s temp rh).result = .am2302_crc ↔
      ((s.am2302_data.d4 + s.am2302_data.d3 + s.am2302_data.d2 + s.am2302_data.d1) % 256
        ≠ s.am2302_data.d0 ∨ 128 ≤ s.am2302_data.d0) := by
  by_cases hsum : (s.am2302_data.d4 + s.am2302_data.d3 + s.am2302_data.d2 + s.am2302_data.d1) % 256
      = promote true s.am2302_data.d0
  · have hm := get_result_of_match true s temp rh hstop hcnt h4 h3 h2 h1 hsum
    rw [hm]
    have hp : promote true s.am2302_data.d0 = s.am2302_data.d0 ∧ s.am2302_data.d0 < 128 := by
      rcases (promote_spec true s.am2302_data.d0 h0).2.2 with h | ⟨_, _, h⟩
      · refine ⟨h, ?_⟩
        by_contra hge
        have : promote true s.am2302_data.d0 = 0xff00 + s.am2302_data.d0 := by
          simp [promote]
          omega
        omega
      · omega
    have hs : (s.am2302_data.d4 + s.am2302_data.d3 + s.am2302_data.d2 + s.am2302_data.d1) % 256
        = s.am2302_data.d0 := by omega
    have hlt : ¬ 128 ≤ s.am2302_data.d0 := by omega
    split <;> simp [hs, hlt]
  · have hm := get_result_of_mismatch true s temp rh hstop hcnt h4 h3 h2 h1 hsum
    rw [hm]
    have : (s.am2302_data.d4 + s.am2302_data.d3 + s.am2302_data.d2 + s.am2302_data.d1) % 256
        ≠ s.am2302_data.d0 ∨ 128 ≤ s.am2302_data.d0 := by
      by_cases hge : 128 ≤ s.am2302_data.d0
      · exact Or.inr hge
      · left
        rw [promote_small true _ (by omega)] at hsum
        exact hsum
    simp [this]

/-- Signed char only.  The frame 02 10 00 70 82 (humidity 52.8 %,
temperature 11.2 C) has a matching checksum, 0x02 + 0x10 + 0x00 + 0x70 = 0x82,
yet in a build with plain char signed am2302_get_result on the stopped timer
returns am2302_crc: the checksum byte 0x82 is promoted to a negative int and
is compared with the masked sum, which lies in 0..255. -/
theorem crc_for_matching_checksum_0x82 :
    (0x02 + 0x10 + 0x00 + 0x70) % 256 = 0x82 ∧
    am2302_get_result true ⟨0, 0, 0, 0, 0, 0, 0, ⟨0x82, 0x70, 0x00, 0x10, 0x02⟩⟩ 5 7
      = ⟨.am2302_crc, 5, 7⟩ := by
  decide

/-- C5.  Take a buffer whose checksum matches (sum of bytes 4..1 modulo 256
equal to byte 0), timer stopped and counter not 0xFFFF.  Replacing any one of
the five bytes, at index i in 0..4, by a different value v makes
am2302_get_result return am2302_crc (so not am2302_ok) and leave the outputs
unwritten.  This holds for either signedness of char. -/
theorem single_byte_corruption_is_crc (charSigned : Bool) (s : Mcu) (temp : Int) (rh : Nat)
    (i v : Nat) (hstop : s.TCCR1B = 0) (hcnt : s.TCNT1 ≠ 0xffff)
    (h4 : s.am2302_data.d4 < 256) (h3 : s.am2302_data.d3 < 256)
    (h2 : s.am2302_data.d2 < 256) (h1 : s.am2302_data.d1 < 256) (h0 : s.am2302_data.d0 < 256)
    (hsum : (s.am2302_data.d4 + s.am2302_data.d3 + s.am2302_data.d2 + s.am2302_data.d1) % 256
      = s.am2302_data.d0)
    (hi : i ≤ 4) (hv : v < 256) (hne : v ≠ s.am2302_data.get i) :
    am2302_get_result charSigned { s with am2302_data := s.am2302_data.set i v } temp rh
      = ⟨.am2302_crc, temp, rh⟩ := by
  have key := get_result_of_bad_sum charSigned
    { s with am2302_data := s.am2302_data.set i v } temp rh hstop hcnt
  apply key <;> interval_cases i <;> simp only [Data.set, Data.get] at hne ⊢ <;> omega

theorem single_byte_corruption_is_crc_witness :
    am2302_get_result false
      { (⟨0, 0, 0, 0, 0, 0, 0, ⟨0x76, 0xE7, 0x00, 0x8D, 0x02⟩⟩ : Mcu) with
        am2302_data := (⟨0x76, 0xE7, 0x00, 0x8D, 0x02⟩ : Data).set 3 0x8C } 5 7
      = ⟨.am2302_crc, 5, 7⟩ :=
  single_byte_corruption_is_crc false ⟨0, 0, 0, 0, 0, 0, 0, ⟨0x76, 0xE7, 0x00, 0x8D, 0x02⟩⟩ 5 7
    3 0x8C rfl (by decide) (by decide) (by decide) (by decide) (by decide) (by decide)
    (by decide) (by decide) (by decide) (by decide)

/-! ## Unpacking -/

theorem toInt16_small (v : Nat) (hv : v < 32768) : toInt16 v = (v : Int) := by
  simp [toInt16, hv]

/-- Unpacking when no sign extension interferes: char unsigned, or the bytes
at indices 0, 1 and 3 below 0x80.  The result is am2302_ok, rh is
byte 4 * 256 + byte 3, and temp is byte 2 * 256 + byte 1 when the top bit of
byte 2 is clear and -32768 when it is set. -/
theorem get_result_unpack (charSigned : Bool) (s : Mcu) (temp : Int) (rh : Nat)
    (hstop : s.TCCR1B = 0) (hcnt : s.TCNT1 ≠ 0xffff)
    (h4 : s.am2302_data.d4 < 256) (h3 : s.am2302_data.d3 < 256)
    (h2 : s.am2302_data.d2 < 256) (h1 : s.am2302_data.d1 < 256)
    (hsum : (s.am2302_data.d4 + s.am2302_data.d3 + s.am2302_data.d2 + s.am2302_data.d1) % 256
      = s.am2302_data.d0)
    (hs : charSigned = false ∨
      (s.am2302_data.d0 < 128 ∧ s.am2302_data.d1 < 128 ∧ s.am2302_data.d3 < 128)) :
    am2302_get_result charSigned s temp rh =
      ⟨.am2302_ok,
        if s.am2302_data.d2 < 128 then ((s.am2302_data.d2 * 256 + s.am2302_data.d1 : Nat) : Int)
        else -32768,
        s.am2302_data.d4 * 256 + s.am2302_data.d3⟩ := by
  have p0 : promote charSigned s.am2302_data.d0 = s.am2302_data.d0 := by
    rcases hs with h | h
    · rw [h, promote_unsigned]
    · exact promote_small _ _ h.1
  have p1 : promote charSigned s.am2302_data.d1 = s.am2302_data.d1 := by
    rcases hs with h | h
    · rw [h, promote_unsigned]
    · exact promote_small _ _ h.2.1
  have p3 : promote charSigned s.am2302_data.d3 = s.am2302_data.d3 := by
    rcases hs with h | h
    · rw [h, promote_unsigned]
    · exact promote_small _ _ h.2.2
  have p4 := (promote_spec charSigned s.am2302_data.d4 h4).1
  have p2 := (promote_spec charSigned s.am2302_data.d2 h2).1
  rw [get_result_of_match charSigned s temp rh hstop hcnt h4 h3 h2 h1 (by rw [p0]; exact hsum)]
  rw [p1, p3, shl8_or _ _ h1, shl8_or _ _ h3, p4, p2, and_0x8000 _ (by omega)]
  by_cases hneg : s.am2302_data.d2 < 128
  · have hlt : s.am2302_data.d2 * 256 + s.am2302_data.d1 < 32768 := by omega
    simp [hneg, hlt, toInt16_small]
  · have hge : ¬ s.am2302_data.d2 * 256 + s.am2302_data.d1 < 32768 := by omega
    simp [hneg, hge, toInt16]

/-- Signed char only.  The stopped timer holds the nominal frame
02 8D 00 E7 76 (checksum matching, top bit of byte 2 clear).  In a build with
plain char signed, am2302_get_result returns am2302_ok but writes rh = 65421
and temp = -32768 instead of 0x02 * 256 + 0x8D = 653 and
0x00 * 256 + 0xE7 = 231: the low bytes 0x8D and 0xE7 are sign-extended before
they are or-ed in. -/
theorem unpack_nominal_frame_signed_char :
    (0x02 + 0x8D + 0x00 + 0xE7) % 256 = 0x76 ∧
    am2302_get_result true ⟨0, 0, 0, 0, 0, 0, 0, ⟨0x76, 0xE7, 0x00, 0x8D, 0x02⟩⟩ 5 7
      = ⟨.am2302_ok, -32768, 65421⟩ := by
  decide

/-- C3 (failing input).  The frame 01 1B 80 65 01 encodes 28.3 % and -10.1 C
(sign bit set, magnitude 0x0065 = 101) with a matching checksum.  For either
signedness of char am2302_get_result returns am2302_ok with temp = -32768,
not -101: the statement that should clear the sign bit masks with 0x8000 and
so clears the magnitude instead. -/
theorem negative_frame_decodes_to_minus_32768 (charSigned : Bool) :
    (0x01 + 0x1B + 0x80 + 0x65) % 256 = 0x01 ∧
    am2302_get_result charSigned ⟨0, 0, 0, 0, 0, 0, 0, ⟨0x01, 0x65, 0x80, 0x1B, 0x01⟩⟩ 5 7
      = ⟨.am2302_ok, -32768, 283⟩ ∧
    -((((0x80 &&& 0x7F) <<< 8) + 0x65 : Nat) : Int) = -101 := by
  cases charSigned <;> decide

/-! ## Symbolic execution of the capture handler -/

theorem capt_rising (s : Mcu) (h : s.TCCR1B = 65) :
    TIMER1_CAPT_vect s = { s with TCNT1 := 0, TCCR1B := 1 } := by
  have e : andNot8 65 (BV ICES1) = 1 := by decide
  have e1 : 65 &&& BV ICES1 ≠ 0 := by decide
  simp [TIMER1_CAPT_vect, h, e, e1]

theorem capt_falling (s : Mcu) (h : s.TCCR1B = 1) :
    TIMER1_CAPT_vect s =
      if s.am2302_bit_ctr = 0 then
        disable_irqs { s with
          TCNT1 := 0
          TCCR1B := 65
          am2302_data := storeBit s.am2302_data 0 (classify s.TCNT1) }
      else
        { s with
          TCNT1 := 0
          TCCR1B := 65
          am2302_data :=
            if s.am2302_bit_ctr < 40 then
              storeBit s.am2302_data s.am2302_bit_ctr (classify s.TCNT1)
            else s.am2302_data
          am2302_bit_ctr := s.am2302_bit_ctr - 1 } := by
  by_cases h0 : s.am2302_bit_ctr = 0
  · by_cases hw : s.TCNT1 % 65536 > 800 <;>
      simp [TIMER1_CAPT_vect, h, h0, hw, BV, ICES1, storeBit, classify, disable_irqs]
  · by_cases h40 : s.am2302_bit_ctr < 40 <;> by_cases hw : s.TCNT1 % 65536 > 800 <;>
      simp [TIMER1_CAPT_vect, h, h0, h40, hw, BV, ICES1, storeBit, classify]

/-- A low pulse followed by a high period, seen from a state that waits for a
rising edge with the timer running. -/
theorem step_pulse (s : Mcu) (l w : Nat) (h : s.TCCR1B = 65) :
    step (step s (.capture l)) (.capture w) =
      if s.am2302_bit_ctr = 0 then
        disable_irqs { s with
          TCNT1 := 0
          TCCR1B := 65
          am2302_data := storeBit s.am2302_data 0 (classify w) }
      else
        { s with
          TCNT1 := 0
          TCCR1B := 65
          am2302_data :=
            if s.am2302_bit_ctr < 40 then storeBit s.am2302_data s.am2302_bit_ctr (classify w)
            else s.am2302_data
          am2302_bit_ctr := s.am2302_bit_ctr - 1 } := by
  have h1 := capt_rising { s with TCNT1 := l } h
  simp only [step]
  rw [h1]
  exact capt_falling _ rfl

theorem run_cons (s : Mcu) (e : Event) (es : List Event) : run s (e :: es) = run (step s e) es :=
  rfl

/-- A train of n pulses met with the bit counter at n - 1 (at most 40 of
them) ends the conversion: the timer is stopped with the counter at 0, both
interrupts are disabled, the bit counter is 0 and the buffer has taken one bit
per pulse. -/
theorem run_edges (ps : List (Nat × Nat)) :
    ∀ s : Mcu, s.TCCR1B = 65 → s.am2302_bit_ctr + 1 = ps.length → ps.length ≤ 40 →
      (run s (edges ps)).TCCR1B = 0 ∧ (run s (edges ps)).TCNT1 = 0 ∧
      (run s (edges ps)).am2302_bit_ctr = 0 ∧
      (run s (edges ps)).TIMSK1 &&& BV ICIE1 = 0 ∧
      (run s (edges ps)).TIMSK1 &&& BV TOIE1 = 0 ∧
      (run s (edges ps)).am2302_data
        = storeBits s.am2302_data s.am2302_bit_ctr (ps.map (fun p => classify p.2)) := by
  induction ps with
  | nil =>
    intro s _ hlen _
    simp at hlen
  | cons p ps ih =>
    intro s hT hlen hle
    simp only [edges, run_cons, List.map_cons, storeBits]
    rw [step_pulse s p.1 p.2 hT]
    simp only [List.length_cons] at hlen hle
    by_cases h0 : s.am2302_bit_ctr = 0
    · have hnil : ps = [] := by
        apply List.eq_nil_of_length_eq_zero
        omega
      subst hnil
      rw [if_pos h0, h0]
      exact ⟨rfl, rfl, rfl, andNot8_irqs_capt _, andNot8_irqs_ovf _, rfl⟩
    · rw [if_neg h0]
      have h40 : s.am2302_bit_ctr < 40 := by omega
      have := ih { s with
          TCNT1 := 0
          TCCR1B := 65
          am2302_data :=
            if s.am2302_bit_ctr < 40 then storeBit s.am2302_data s.am2302_bit_ctr (classify p.2)
            else s.am2302_data
          am2302_bit_ctr := s.am2302_bit_ctr - 1 } rfl (by simp only; omega) (by omega)
      simp only [if_pos h40] at this ⊢
      exact this

/-! ## The buffer after a frame -/

theorem classify_bitWidth (b : Bool) : classify (bitWidth b) = b := by
  cases b <;> decide

theorem map_classify_bitPulses (lo : Nat → Nat) (bs : List Bool) :
    ∀ i, (bitPulses lo i bs).map (fun p => classify p.2) = bs := by
  induction bs with
  | nil => intro i; rfl
  | cons b bs ih =>
    intro i
    simp only [bitPulses, List.map_cons, classify_bitWidth, ih]

theorem length_bitPulses (lo : Nat → Nat) (bs : List Bool) :
    ∀ i, (bitPulses lo i bs).length = bs.length := by
  induction bs with
  | nil => intro i; rfl
  | cons b bs ih =>
    intro i
    simp only [bitPulses, List.length_cons, ih]

theorem shift_or_one (x : Nat) : ((x <<< 1) % 256) ||| 1 = (2 * x + 1) % 256 := by
  have e : (x <<< 1) % 256 = 2 ^ 1 * (x % 128) := by
    rw [Nat.shiftLeft_eq]
    omega
  rw [e, ← Nat.mul_add_lt_is_or (by omega) (x % 128)]
  omega

theorem double_or_one (x : Nat) : (2 * x) % 256 ||| 1 = (2 * x + 1) % 256 := by
  have h := shift_or_one x
  rw [Nat.shiftLeft_eq] at h
  rw [← h]
  congr 2
  omega

theorem storeBit_eq_set (d : Data) (ctr : Nat) (b : Bool) (h : ctr < 40) :
    storeBit d ctr b = d.set (ctr / 8) (shiftIn (d.get (ctr / 8)) b) := by
  have hi : ctr / 8 ≤ 4 := by omega
  unfold storeBit
  simp only []
  generalize ctr / 8 = i at hi ⊢
  have e0 : ∀ x : Nat, (x <<< 1) % 256 = (2 * x) % 256 := by
    intro x
    rw [Nat.shiftLeft_eq]
    omega
  cases b <;> interval_cases i <;>
    simp [shiftIn, Data.set, Data.get, double_or_one, e0]

theorem get_set (d : Data) (i v : Nat) (hi : i ≤ 4) : (d.set i v).get i = v := by
  interval_cases i <;> rfl

theorem set_set (d : Data) (i v w : Nat) : (d.set i v).set i w = d.set i w := by
  rcases i with _ | _ | _ | _ | _ | _ <;> rfl

theorem toNat_bitOf (x i : Nat) : (bitOf x i).toNat = x / 2 ^ i % 2 := by
  unfold bitOf
  by_cases h : x / 2 ^ i % 2 = 1
  · simp [h]
  · simp [h]
    omega

theorem shiftIn_byte (y x : Nat) (hx : x < 256) :
    shiftIn (shiftIn (shiftIn (shiftIn (shiftIn (shiftIn (shiftIn (shiftIn y
      (bitOf x 7)) (bitOf x 6)) (bitOf x 5)) (bitOf x 4)) (bitOf x 3)) (bitOf x 2))
      (bitOf x 1)) (bitOf x 0) = x := by
  have a1 : shiftIn y (bitOf x 7) % 2 = x / 128 % 2 := by
    simp only [shiftIn, toNat_bitOf]
    omega
  generalize shiftIn y (bitOf x 7) = r1 at a1 ⊢
  have a2 : shiftIn r1 (bitOf x 6) % 4 = x / 64 % 4 := by
    simp only [shiftIn, toNat_bitOf]
    omega
  generalize shiftIn r1 (bitOf x 6) = r2 at a2 ⊢
  have a3 : shiftIn r2 (bitOf x 5) % 8 = x / 32 % 8 := by
    simp only [shiftIn, toNat_bitOf]
    omega
  generalize shiftIn r2 (bitOf x 5) = r3 at a3 ⊢
  have a4 : shiftIn r3 (bitOf x 4) % 16 = x / 16 % 16 := by
    simp only [shiftIn, toNat_bitOf]
    omega
  generalize shiftIn r3 (bitOf x 4) = r4 at a4 ⊢
  have a5 : shiftIn r4 (bitOf x 3) % 32 = x / 8 % 32 := by
    simp only [shiftIn, toNat_bitOf]
    omega
  generalize shiftIn r4 (bitOf x 3) = r5 at a5 ⊢
  have a6 : shiftIn r5 (bitOf x 2) % 64 = x / 4 % 64 := by
    simp only [shiftIn, toNat_bitOf]
    omega
  generalize shiftIn r5 (bitOf x 2) = r6 at a6 ⊢
  have a7 : shiftIn r6 (bitOf x 1) % 128 = x / 2 % 128 := by
    simp only [shiftIn, toNat_bitOf]
    omega
  generalize shiftIn r6 (bitOf x 1) = r7 at a7 ⊢
  simp only [shiftIn, toNat_bitOf]
  omega

theorem storeBits_append (xs ys : List Bool) :
    ∀ (d : Data) (ctr : Nat),
      storeBits d ctr (xs ++ ys) = storeBits (storeBits d ctr xs) (ctr - xs.length) ys := by
  induction xs with
  | nil => intro d ctr; rfl
  | cons b xs ih =>
    intro d ctr
    show storeBits (storeBit d ctr b) (ctr - 1) (xs ++ ys)
      = storeBits (storeBits (storeBit d ctr b) (ctr - 1) xs) (ctr - (xs.length + 1)) ys
    rw [ih, Nat.sub_sub, Nat.add_comm 1]

/-- Eight falling edges with the bit counter running from 8 j + 7 down to 8 j
replace byte j of the buffer by the byte whose bits were sent, whatever the
byte held before. -/
theorem storeBits_byte (d : Data) (ctr j x : Nat) (hc : ctr = 8 * j + 7) (hj : j ≤ 4)
    (hx : x < 256) : storeBits d ctr (byteBits x) = d.set j x := by
  subst hc
  interval_cases j <;>
    simp [byteBits, storeBits, storeBit_eq_set, get_set, set_set, shiftIn_byte _ _ hx]

theorem length_byteBits (x : Nat) : (byteBits x).length = 8 := rfl

theorem storeBits_frame (d : Data) (b4 b3 b2 b1 b0 : Nat) (h4 : b4 < 256) (h3 : b3 < 256)
    (h2 : b2 < 256) (h1 : b1 < 256) (h0 : b0 < 256) :
    storeBits d 39 (frameBits [b4, b3, b2, b1, b0]) = ⟨b0, b1, b2, b3, b4⟩ := by
  simp only [frameBits, storeBits_append, length_byteBits, List.append_nil]
  rw [storeBits_byte d 39 4 b4 rfl (by omega) h4, storeBits_byte _ _ 3 b3 rfl (by omega) h3,
    storeBits_byte _ _ 2 b2 rfl (by omega) h2, storeBits_byte _ _ 1 b1 rfl (by omega) h1,
    storeBits_byte _ _ 0 b0 rfl (by omega) h0]
  rfl

theorem length_frameBits5 (b4 b3 b2 b1 b0 : Nat) :
    (frameBits [b4, b3, b2, b1, b0]).length = 40 := rfl

/-! ## From the trigger to the first payload bit -/

theorem trigger_read_fields (s : Mcu) :
    (am2302_trigger_read s).TCCR1B = 1 ∧ (am2302_trigger_read s).am2302_bit_ctr = 41 ∧
    (am2302_trigger_read s).am2302_data = ⟨0, 0, 0, 0, 0⟩ ∧
    (am2302_trigger_read s).TIMSK1 &&& BV ICIE1 = 0 := by
  refine ⟨rfl, rfl, rfl, ?_⟩
  show (andNot8 s.TIMSK1 (BV ICIE1 ||| BV TOIE1) ||| BV TOIE1) &&& BV ICIE1 = 0
  rw [Nat.and_distrib_right, andNot8_irqs_capt]
  decide

theorem overflow_start_fields (s : Mcu) (h : s.TIMSK1 &&& BV ICIE1 = 0) :
    (step s .overflow).TCCR1B = s.TCCR1B ∧
    (step s .overflow).am2302_bit_ctr = s.am2302_bit_ctr ∧
    (step s .overflow).am2302_data = s.am2302_data := by
  simp only [step, TIMER1_OVF_vect]
  rw [if_pos h]
  exact ⟨rfl, rfl, rfl⟩

theorem rising_fields (s : Mcu) (w : Nat) (hT : s.TCCR1B = 65) :
    (step s (.capture w)).TCCR1B = 1 ∧
    (step s (.capture w)).am2302_bit_ctr = s.am2302_bit_ctr ∧
    (step s (.capture w)).am2302_data = s.am2302_data := by
  have h := capt_rising { s with TCNT1 := w } hT
  simp only [step]
  rw [h]
  exact ⟨rfl, rfl, rfl⟩

theorem falling_ack_fields (s : Mcu) (w : Nat) (hT : s.TCCR1B = 1)
    (h40 : 40 ≤ s.am2302_bit_ctr) :
    (step s (.capture w)).TCCR1B = 65 ∧
    (step s (.capture w)).am2302_bit_ctr = s.am2302_bit_ctr - 1 ∧
    (step s (.capture w)).am2302_data = s.am2302_data := by
  have h := capt_falling { s with TCNT1 := w } hT
  have h0 : s.am2302_bit_ctr ≠ 0 := by omega
  have hlt : ¬ s.am2302_bit_ctr < 40 := by omega
  simp only [step]
  rw [h]
  rw [if_neg h0, if_neg hlt]
  exact ⟨rfl, rfl, rfl⟩

/-- The start pulse ends and the sensor acknowledges: after the overflow, the
falling edge, the rising edge and the second falling edge the decoder waits
for the rising edge of the first payload bit with the bit counter at 39 and
the buffer as the trigger left it. -/
theorem run_acknowledge (s : Mcu) (a b w : Nat) (hT : s.TCCR1B = 1)
    (hI : s.TIMSK1 &&& BV ICIE1 = 0) (hc : s.am2302_bit_ctr = 41) :
    (run s [.overflow, .capture a, .capture b, .capture w]).TCCR1B = 65 ∧
    (run s [.overflow, .capture a, .capture b, .capture w]).am2302_bit_ctr = 39 ∧
    (run s [.overflow, .capture a, .capture b, .capture w]).am2302_data = s.am2302_data := by
  simp only [run, List.foldl_cons, List.foldl_nil]
  obtain ⟨oT, oc, od⟩ := overflow_start_fields s hI
  obtain ⟨fT, fc, fd⟩ := falling_ack_fields (step s .overflow) a (by rw [oT, hT])
    (by rw [oc, hc]; omega)
  obtain ⟨rT, rc, rd⟩ := rising_fields (step (step s .overflow) (.capture a)) b fT
  obtain ⟨gT, gc, gd⟩ := falling_ack_fields
    (step (step (step s .overflow) (.capture a)) (.capture b)) w rT
    (by rw [rc, fc, oc, hc])
  refine ⟨gT, ?_, ?_⟩
  · rw [gc, rc, fc, oc, hc]
  · rw [gd, rd, fd, od]

/-- A complete conversion.  From the state left by am2302_trigger_read, the
events of a conversion carrying the bytes b4 b3 b2 b1 b0 (in transmission
order) stop the timer with the counter at 0, disable both interrupts, bring
the bit counter to 0 and leave the bytes in the buffer, first byte at index 4.
-/
theorem run_conversion (s0 : Mcu) (ack0 ackLow : Nat) (lo : Nat → Nat) (b4 b3 b2 b1 b0 : Nat)
    (h4 : b4 < 256) (h3 : b3 < 256) (h2 : b2 < 256) (h1 : b1 < 256) (h0 : b0 < 256) :
    (run (am2302_trigger_read s0) (conversion ack0 ackLow lo [b4, b3, b2, b1, b0])).TCCR1B = 0 ∧
    (run (am2302_trigger_read s0) (conversion ack0 ackLow lo [b4, b3, b2, b1, b0])).TCNT1 = 0 ∧
    (run (am2302_trigger_read s0)
      (conversion ack0 ackLow lo [b4, b3, b2, b1, b0])).am2302_bit_ctr = 0 ∧
    (run (am2302_trigger_read s0)
      (conversion ack0 ackLow lo [b4, b3, b2, b1, b0])).TIMSK1 &&& BV ICIE1 = 0 ∧
    (run (am2302_trigger_read s0)
      (conversion ack0 ackLow lo [b4, b3, b2, b1, b0])).TIMSK1 &&& BV TOIE1 = 0 ∧
    (run (am2302_trigger_read s0)
      (conversion ack0 ackLow lo [b4, b3, b2, b1, b0])).am2302_data = ⟨b0, b1, b2, b3, b4⟩ := by
  obtain ⟨tT, tc, td, tI⟩ := trigger_read_fields s0
  obtain ⟨aT, ac, ad⟩ := run_acknowledge (am2302_trigger_read s0) ack0 ackLow 1280 tT tI tc
  have hsplit : run (am2302_trigger_read s0) (conversion ack0 ackLow lo [b4, b3, b2, b1, b0])
      = run (run (am2302_trigger_read s0)
          [.overflow, .capture ack0, .capture ackLow, .capture 1280])
          (edges (bitPulses lo 0 (frameBits [b4, b3, b2, b1, b0]))) := rfl
  rw [hsplit]
  have hlen : (bitPulses lo 0 (frameBits [b4, b3, b2, b1, b0])).length = 40 := by
    rw [length_bitPulses, length_frameBits5]
  have key := run_edges (bitPulses lo 0 (frameBits [b4, b3, b2, b1, b0])) _ aT
    (by rw [ac, hlen]) (by rw [hlen])
  rw [map_classify_bitPulses, ac, ad, td, storeBits_frame _ _ _ _ _ _ h4 h3 h2 h1 h0] at key
  exact key

/-! ## Round trip through the decoder -/

theorem get_result_congr (charSigned : Bool) (s s1 : Mcu) (temp : Int) (rh : Nat)
    (hT : s.TCCR1B = s1.TCCR1B) (hC : s.TCNT1 = s1.TCNT1)
    (hD : s.am2302_data = s1.am2302_data) :
    am2302_get_result charSigned s temp rh = am2302_get_result charSigned s1 temp rh := by
  simp only [am2302_get_result, hT, hC, hD]

theorem frame_eq (h t : Nat) :
    frame h t = [h / 256, h % 256, t / 256, t % 256,
      (h / 256 + h % 256 + t / 256 + t % 256) % 256] := by
  simp only [frame, and_0xff, Nat.shiftRight_eq_div_pow]

/-- Round trip when no sign extension interferes.  For a humidity h below
65536 and a temperature t below 32768, a conversion that carries the frame of
h and t ends with am2302_get_result returning am2302_ok, rh = h and temp = t,
provided char is unsigned or the low byte of h, the low byte of t and the
checksum are all below 0x80. -/
theorem roundtrip_without_sign_extension (charSigned : Bool) (s0 : Mcu) (ack0 ackLow : Nat)
    (lo : Nat → Nat) (temp : Int) (rh : Nat) (h t : Nat) (hh : h < 65536) (ht : t < 32768)
    (hs : charSigned = false ∨
      ((h / 256 + h % 256 + t / 256 + t % 256) % 256 < 128 ∧ t % 256 < 128 ∧ h % 256 < 128)) :
    am2302_get_result charSigned
      (run (am2302_trigger_read s0) (conversion ack0 ackLow lo (frame h t))) temp rh
      = ⟨.am2302_ok, (t : Int), h⟩ := by
  rw [frame_eq]
  obtain ⟨hT, hC, _, _, _, hD⟩ := run_conversion s0 ack0 ackLow lo (h / 256) (h % 256) (t / 256)
    (t % 256) ((h / 256 + h % 256 + t / 256 + t % 256) % 256)
    (by omega) (by omega) (by omega) (by omega) (by omega)
  rw [get_result_unpack charSigned _ temp rh hT (by rw [hC]; decide)
    (by rw [hD]; simp only; omega) (by rw [hD]; simp only; omega)
    (by rw [hD]; simp only; omega) (by rw [hD]; simp only; omega)
    (by rw [hD]) (by rw [hD]; exact hs)]
  rw [hD]
  have e1 : h / 256 * 256 + h % 256 = h := by omega
  have e2 : t / 256 * 256 + t % 256 = t := by omega
  have e3 : t / 256 < 128 := by omega
  simp only [e1, e2, e3, if_true]

/-- Signed char only.  The nominal reading, humidity 653 and temperature
231, is the frame 02 8D 00 E7 76.  From any state, am2302_trigger_read
followed by the events of a conversion that carries this frame (start-pulse
overflow, acknowledge edges, then per bit a rising edge and a falling edge
after 448 or 1120 ticks) leaves the frame in the buffer; in a build with plain
char signed, am2302_get_result then returns am2302_ok with rh = 65421 and
temp = -32768 instead of rh = 653 and temp = 231. -/
theorem roundtrip_nominal_signed_char (s0 : Mcu) (ack0 ackLow : Nat) (lo : Nat → Nat)
    (temp : Int) (rh : Nat) :
    frame 653 231 = [0x02, 0x8D, 0x00, 0xE7, 0x76] ∧
    am2302_get_result true
      (run (am2302_trigger_read s0) (conversion ack0 ackLow lo (frame 653 231))) temp rh
      = ⟨.am2302_ok, -32768, 65421⟩ := by
  have hf : frame 653 231 = [0x02, 0x8D, 0x00, 0xE7, 0x76] := by decide
  refine ⟨hf, ?_⟩
  rw [hf]
  obtain ⟨hT, hC, _, _, _, hD⟩ := run_conversion s0 ack0 ackLow lo 0x02 0x8D 0x00 0xE7 0x76
    (by decide) (by decide) (by decide) (by decide) (by decide)
  rw [get_result_congr true _ ⟨0, 0, 0, 0, 0, 0, 0, ⟨0x76, 0xE7, 0x00, 0x8D, 0x02⟩⟩ temp rh hT hC hD]
  simp only [am2302_get_result]
  rw [if_neg (by decide), if_neg (by decide), if_neg (by decide), if_pos (by decide)]
  decide

/-! ## am2302_trigger_read, am2302_get_raw_data, am2302_init -/

theorem or_and_self (x m : Nat) : (x ||| m) &&& m = m := by
  apply Nat.eq_of_testBit_eq
  intro i
  simp only [Nat.testBit_and, Nat.testBit_or]
  cases x.testBit i <;> cases m.testBit i <;> rfl

theorem or_twice (t a b : Nat) : t ||| a ||| b ||| a ||| b = t ||| a ||| b := by
  apply Nat.eq_of_testBit_eq
  intro i
  simp only [Nat.testBit_or]
  cases t.testBit i <;> cases a.testBit i <;> cases b.testBit i <;> rfl

theorem andNot8_idem (x m : Nat) : andNot8 (andNot8 x m) m = andNot8 x m := by
  unfold andNot8
  rw [Nat.and_assoc, Nat.and_self]

theorem andNot8_bit4 (x : Nat) : andNot8 x (BV 4) &&& BV 4 = 0 := by
  unfold andNot8
  rw [Nat.and_assoc]
  have h : (0xff ^^^ BV 4) &&& BV 4 = 0 := by decide
  rw [h, Nat.and_zero]

/-- C11.  After am2302_trigger_read, from whatever state it is called: the bit
counter is 41, the five buffer bytes are 0, the capture interrupt is disabled
(ICIE1 clear), the overflow interrupt is enabled (TOIE1 set), the data line is
driven low (bit 4 of DDRD set), TCCR1B holds CS10 only, so the timer runs and
the capture edge is the falling one (ICES1 clear), and the counter holds
65536 - 1280 = 64256. -/
theorem trigger_read_postcondition (s : Mcu) :
    (am2302_trigger_read s).am2302_bit_ctr = 41 ∧
    (am2302_trigger_read s).am2302_data = ⟨0, 0, 0, 0, 0⟩ ∧
    (am2302_trigger_read s).TIMSK1 &&& BV ICIE1 = 0 ∧
    (am2302_trigger_read s).TIMSK1 &&& BV TOIE1 ≠ 0 ∧
    (am2302_trigger_read s).DDRD &&& BV 4 ≠ 0 ∧
    (am2302_trigger_read s).TCCR1B = BV CS10 ∧
    (am2302_trigger_read s).TCCR1B ≠ 0 ∧
    (am2302_trigger_read s).TCCR1B &&& BV ICES1 = 0 ∧
    (am2302_trigger_read s).TCNT1 = 64256 ∧
    (am2302_trigger_read s).TCNT1 = 65536 - 1280 := by
  have hrun : BV CS10 ≠ 0 := by decide
  have hedge : BV CS10 &&& BV ICES1 = 0 := by decide
  refine ⟨rfl, rfl, (trigger_read_fields s).2.2.2, ?_, ?_, rfl, hrun, hedge, rfl, rfl⟩
  · show (andNot8 s.TIMSK1 (BV ICIE1 ||| BV TOIE1) ||| BV TOIE1) &&& BV TOIE1 ≠ 0
    rw [or_and_self]
    decide
  · show (s.DDRD ||| BV 4) &&& BV 4 ≠ 0
    rw [or_and_self]
    decide

/-- C12.  The function am2302_get_raw_data hands out the buffer in receipt
order: element i of the output is am2302_data[4 - i] for i = 0..4, that is the
list of bytes 4, 3, 2, 1, 0 (first byte received first, checksum last).  The
return value is the bit counter converted to unsigned char, which is the bit
counter itself for every value a char can hold as a non-negative number.  The
function only reads the driver state. -/
theorem get_raw_data_receipt_order (s : Mcu) :
    (am2302_get_raw_data s).2
      = [s.am2302_data.d4, s.am2302_data.d3, s.am2302_data.d2, s.am2302_data.d1,
          s.am2302_data.d0] ∧
    (∀ i : Nat, i ≤ 4 → (am2302_get_raw_data s).2.getD i 0 = s.am2302_data.get (4 - i)) ∧
    (am2302_get_raw_data s).2.length = 5 ∧
    (am2302_get_raw_data s).1 = s.am2302_bit_ctr % 256 ∧
    (s.am2302_bit_ctr < 256 → (am2302_get_raw_data s).1 = s.am2302_bit_ctr) := by
  refine ⟨rfl, ?_, rfl, rfl, ?_⟩
  · intro i hi
    interval_cases i <;> rfl
  · intro h
    exact Nat.mod_eq_of_lt h

theorem get_raw_data_receipt_order_witness :
    (am2302_get_raw_data ⟨0, 0, 0, 0, 0, 0, 17, ⟨0x76, 0xE7, 0x00, 0x8D, 0x02⟩⟩).1 = 17 :=
  (get_raw_data_receipt_order ⟨0, 0, 0, 0, 0, 0, 17, ⟨0x76, 0xE7, 0x00, 0x8D, 0x02⟩⟩).2.2.2.2
    (by decide)

/-- C13.  The function am2302_init is idempotent, and after it both decoder
interrupts are disabled (ICIE1 and TOIE1 clear), the timer is stopped
(TCCR1B = 0) and the data line is an input without drive (bit 4 of DDRD and of
PORTD clear); it touches neither the bit counter nor the buffer. -/
theorem init_idempotent_rest_state (s : Mcu) :
    am2302_init (am2302_init s) = am2302_init s ∧
    (am2302_init s).TIMSK1 &&& BV ICIE1 = 0 ∧
    (am2302_init s).TIMSK1 &&& BV TOIE1 = 0 ∧
    (am2302_init s).TCCR1B = 0 ∧
    (am2302_init s).DDRD &&& BV 4 = 0 ∧
    (am2302_init s).PORTD &&& BV 4 = 0 ∧
    (am2302_init s).am2302_bit_ctr = s.am2302_bit_ctr ∧
    (am2302_init s).am2302_data = s.am2302_data := by
  refine ⟨?_, andNot8_irqs_capt _, andNot8_irqs_ovf _, rfl, andNot8_bit4 _, andNot8_bit4 _,
    rfl, rfl⟩
  simp only [am2302_init, disable_irqs, andNot8_idem, Mcu.mk.injEq, true_and, and_true]
  exact or_twice _ _ _

/-! ## One capture event, from any state -/

theorem andNot8_ices (x : Nat) : andNot8 x (BV ICES1) &&& BV ICES1 = 0 := by
  unfold andNot8
  rw [Nat.and_assoc]
  have h : (0xff ^^^ BV ICES1) &&& BV ICES1 = 0 := by decide
  rw [h, Nat.and_zero]

theorem capt_of_rising (s : Mcu) (h : s.TCCR1B &&& BV ICES1 ≠ 0) :
    TIMER1_CAPT_vect s = { s with TCNT1 := 0, TCCR1B := andNot8 s.TCCR1B (BV ICES1) } := by
  simp only [TIMER1_CAPT_vect]
  rw [if_pos h]

theorem capt_of_falling_data (s : Mcu) (h : s.TCCR1B &&& BV ICES1 = 0) :
    (TIMER1_CAPT_vect s).am2302_data =
      if s.am2302_bit_ctr < 40 then
        storeBit s.am2302_data s.am2302_bit_ctr (classify s.TCNT1)
      else s.am2302_data := by
  by_cases h0 : s.am2302_bit_ctr = 0
  · by_cases hw : s.TCNT1 % 65536 > 800 <;>
      simp [TIMER1_CAPT_vect, h, h0, hw, storeBit, classify, disable_irqs]
  · by_cases h40 : s.am2302_bit_ctr < 40 <;> by_cases hw : s.TCNT1 % 65536 > 800 <;>
      simp [TIMER1_CAPT_vect, h, h0, h40, hw, storeBit, classify]

theorem ovf_data (s : Mcu) : (TIMER1_OVF_vect s).am2302_data = s.am2302_data := by
  simp only [TIMER1_OVF_vect, disable_irqs]
  split_ifs <;> rfl

theorem get_set_ne (d : Data) (i j v : Nat) (h : j ≠ i) : (d.set i v).get j = d.get j := by
  rcases i with _ | _ | _ | _ | _ | _ <;> rcases j with _ | _ | _ | _ | _ | _ <;>
    first
    | rfl
    | exact absurd rfl h

theorem classify_of_lt (cnt : Nat) (h : cnt < 65536) : classify cnt = decide (cnt > 800) := by
  unfold classify
  rw [Nat.mod_eq_of_lt h]

theorem shiftIn_low_bit (x : Nat) (b : Bool) : shiftIn x b % 2 = b.toNat := by
  unfold shiftIn
  cases b <;> simp <;> omega

theorem shiftIn_eq_shift_or (x : Nat) (b : Bool) :
    shiftIn x b = ((x <<< 1) ||| (if b then 1 else 0)) % 256 := by
  unfold shiftIn
  rw [Nat.shiftLeft_eq]
  have e : x * 2 ^ 1 ||| (if b then 1 else 0) = 2 ^ 1 * x + (if b then 1 else 0) := by
    rw [Nat.mul_comm, ← Nat.mul_add_lt_is_or (by cases b <;> simp) x]
  rw [e]
  cases b <;> simp

theorem falling_data_byte (s : Mcu) (cnt : Nat) (hfall : s.TCCR1B &&& BV ICES1 = 0)
    (hctr : s.am2302_bit_ctr < 40) (hcnt : cnt < 65536) :
    (step s (.capture cnt)).am2302_data
      = s.am2302_data.set (s.am2302_bit_ctr / 8)
          (shiftIn (s.am2302_data.get (s.am2302_bit_ctr / 8)) (decide (cnt > 800))) := by
  have h := capt_of_falling_data { s with TCNT1 := cnt } hfall
  simp only [step]
  rw [h, if_pos hctr, classify_of_lt cnt hcnt, storeBit_eq_set _ _ _ hctr]

/-- C14.  On a capture event on a falling edge (ICES1 clear) with the bit
counter below 40 and a measured width cnt (a 16-bit counter value), the low
bit of the buffer byte just written, the one at index bit counter / 8, is 1 if
and only if cnt > 800.  In particular 799 and 800 give 0 and 801 gives 1. -/
theorem threshold_boundary (s : Mcu) (hfall : s.TCCR1B &&& BV ICES1 = 0)
    (hctr : s.am2302_bit_ctr < 40) :
    (∀ cnt : Nat, cnt < 65536 →
      ((step s (.capture cnt)).am2302_data.get (s.am2302_bit_ctr / 8) % 2 = 1 ↔ cnt > 800)) ∧
    (step s (.capture 799)).am2302_data.get (s.am2302_bit_ctr / 8) % 2 = 0 ∧
    (step s (.capture 800)).am2302_data.get (s.am2302_bit_ctr / 8) % 2 = 0 ∧
    (step s (.capture 801)).am2302_data.get (s.am2302_bit_ctr / 8) % 2 = 1 := by
  have hi : s.am2302_bit_ctr / 8 ≤ 4 := by omega
  have key : ∀ cnt : Nat, cnt < 65536 →
      (step s (.capture cnt)).am2302_data.get (s.am2302_bit_ctr / 8) % 2
        = (decide (cnt > 800)).toNat := by
    intro cnt hcnt
    rw [falling_data_byte s cnt hfall hctr hcnt, get_set _ _ _ hi, shiftIn_low_bit]
  refine ⟨?_, ?_, ?_, ?_⟩
  · intro cnt hcnt
    rw [key cnt hcnt]
    by_cases h : cnt > 800 <;> simp [h]
  · rw [key 799 (by decide)]
    decide
  · rw [key 800 (by decide)]
    decide
  · rw [key 801 (by decide)]
    decide

theorem threshold_boundary_witness :
    (step ⟨1, 0, 0x21, 0, 0, 0, 17, ⟨0, 0, 0x0e, 0x8D, 0x02⟩⟩ (.capture 800)).am2302_data.get
      (17 / 8) % 2 = 0 :=
  (threshold_boundary ⟨1, 0, 0x21, 0, 0, 0, 17, ⟨0, 0, 0x0e, 0x8D, 0x02⟩⟩
    (by decide) (by decide)).2.2.1

/-- C15.  On a capture event on a falling edge with the bit counter k < 40 and
a measured width cnt (a 16-bit counter value), the buffer byte at index k / 8
becomes ((old << 1) | b) mod 256 with b = 1 if cnt > 800 and b = 0 otherwise,
and every other byte keeps its value.  The index is 4 for k = 32..39 and 0 for
k = 0..7; eight such events with the counter running from 8 j + 7 down to 8 j
and the bits of a byte x taken most significant first leave x in byte j. -/
theorem bit_placement (s : Mcu) (cnt : Nat) (hfall : s.TCCR1B &&& BV ICES1 = 0)
    (hk : s.am2302_bit_ctr < 40) (hcnt : cnt < 65536) :
    (step s (.capture cnt)).am2302_data.get (s.am2302_bit_ctr / 8)
      = ((s.am2302_data.get (s.am2302_bit_ctr / 8) <<< 1) ||| (if cnt > 800 then 1 else 0))
          % 256 ∧
    (∀ j : Nat, j ≠ s.am2302_bit_ctr / 8 →
      (step s (.capture cnt)).am2302_data.get j = s.am2302_data.get j) ∧
    s.am2302_bit_ctr / 8 ≤ 4 ∧
    (32 ≤ s.am2302_bit_ctr → s.am2302_bit_ctr / 8 = 4) ∧
    (s.am2302_bit_ctr < 8 → s.am2302_bit_ctr / 8 = 0) ∧
    (∀ (d : Data) (j x : Nat), j ≤ 4 → x < 256 →
      storeBits d (8 * j + 7) (byteBits x) = d.set j x) := by
  have hi : s.am2302_bit_ctr / 8 ≤ 4 := by omega
  have hd := falling_data_byte s cnt hfall hk hcnt
  refine ⟨?_, ?_, hi, by omega, by omega, ?_⟩
  · rw [hd, get_set _ _ _ hi, shiftIn_eq_shift_or]
    by_cases h : cnt > 800 <;> simp [h]
  · intro j hj
    rw [hd, get_set_ne _ _ _ _ hj]
  · intro d j x hj hx
    exact storeBits_byte d (8 * j + 7) j x rfl hj hx

theorem bit_placement_witness :
    (step ⟨1, 0, 0x21, 0, 0, 0, 17, ⟨0, 0, 0x0e, 0x8D, 0x02⟩⟩ (.capture 1120)).am2302_data.get
      (17 / 8) = ((0x0e <<< 1) ||| 1) % 256 :=
  (bit_placement ⟨1, 0, 0x21, 0, 0, 0, 17, ⟨0, 0, 0x0e, 0x8D, 0x02⟩⟩ 1120
    (by decide) (by decide) (by decide)).1

/-- C17.  From any state: a capture event on a rising edge (ICES1 set) only
clears the counter and the ICES1 bit, so the buffer and the bit counter are
unchanged and the next capture is on a falling edge; a capture event on a
falling edge with the bit counter at 40 or above leaves the buffer unchanged;
an overflow event leaves the buffer unchanged, in its start-pulse branch and
in its timeout branch alike. -/
theorem buffer_changes_only_on_data_bits (s : Mcu) (cnt : Nat) :
    (s.TCCR1B &&& BV ICES1 ≠ 0 →
      step s (.capture cnt) = { s with TCNT1 := 0, TCCR1B := andNot8 s.TCCR1B (BV ICES1) } ∧
      (step s (.capture cnt)).am2302_data = s.am2302_data ∧
      (step s (.capture cnt)).am2302_bit_ctr = s.am2302_bit_ctr ∧
      (step s (.capture cnt)).TCCR1B &&& BV ICES1 = 0) ∧
    (s.TCCR1B &&& BV ICES1 = 0 → 40 ≤ s.am2302_bit_ctr →
      (step s (.capture cnt)).am2302_data = s.am2302_data) ∧
    (step s .overflow).am2302_data = s.am2302_data ∧
    (s.TIMSK1 &&& BV ICIE1 = 0 → (TIMER1_OVF_vect s).am2302_data = s.am2302_data) ∧
    (s.TIMSK1 &&& BV ICIE1 ≠ 0 → (TIMER1_OVF_vect s).am2302_data = s.am2302_data) := by
  refine ⟨?_, ?_, ovf_data s, fun _ => ovf_data s, fun _ => ovf_data s⟩
  · intro hrise
    have h := capt_of_rising { s with TCNT1 := cnt } hrise
    simp only [step]
    rw [h]
    exact ⟨rfl, rfl, rfl, andNot8_ices _⟩
  · intro hfall h40
    have h := capt_of_falling_data { s with TCNT1 := cnt } hfall
    have hlt : ¬ s.am2302_bit_ctr < 40 := by omega
    simp only [step]
    rw [h, if_neg hlt]

theorem buffer_changes_only_on_data_bits_witness :
    (step ⟨65, 0, 0x21, 0, 0, 0, 17, ⟨0, 0, 0x0e, 0x8D, 0x02⟩⟩ (.capture 800)).am2302_data
      = ⟨0, 0, 0x0e, 0x8D, 0x02⟩ :=
  ((buffer_changes_only_on_data_bits ⟨65, 0, 0x21, 0, 0, 0, 17, ⟨0, 0, 0x0e, 0x8D, 0x02⟩⟩ 800).1
    (by decide)).2.1

/-! ## The 42 falling edges of a conversion -/

theorem falling_fields (s : Mcu) (w : Nat) (hT : s.TCCR1B = 1) (h0 : s.am2302_bit_ctr ≠ 0) :
    (step s (.capture w)).TCCR1B = 65 ∧
    (step s (.capture w)).am2302_bit_ctr = s.am2302_bit_ctr - 1 := by
  have h := capt_falling { s with TCNT1 := w } hT
  simp only [step]
  rw [h, if_neg h0]
  exact ⟨rfl, rfl⟩

/-- While fewer than 83 capture events have been handled since the end of the
start pulse, the timer runs: after n events TCCR1B is 1 (n even, a falling
edge is next) or 65 (n odd), and the bit counter is 41 minus the number of
falling edges seen. -/
theorem listening_fields (ws : List Nat) :
    ∀ (s : Mcu) (n : Nat), n + ws.length ≤ 82 →
      s.TCCR1B = (if n % 2 = 0 then 1 else 65) → s.am2302_bit_ctr = 41 - (n + 1) / 2 →
      (run s (ws.map .capture)).TCCR1B = (if (n + ws.length) % 2 = 0 then 1 else 65) ∧
      (run s (ws.map .capture)).am2302_bit_ctr = 41 - (n + ws.length + 1) / 2 := by
  induction ws with
  | nil =>
    intro s n _ hT hc
    exact ⟨hT, hc⟩
  | cons w ws ih =>
    intro s n hlen hT hc
    simp only [List.length_cons] at hlen
    simp only [List.map_cons, run_cons, List.length_cons]
    have e : (n + 1) + ws.length = n + (ws.length + 1) := by omega
    by_cases hn : n % 2 = 0
    · rw [if_pos hn] at hT
      obtain ⟨fT, fc⟩ := falling_fields s w hT (by omega)
      have key := ih (step s (.capture w)) (n + 1) (by omega)
        (by rw [fT, if_neg (by omega)]) (by rw [fc, hc]; omega)
      simp only [e] at key
      exact key
    · rw [if_neg hn] at hT
      obtain ⟨rT, rc, _⟩ := rising_fields s w hT
      have key := ih (step s (.capture w)) (n + 1) (by omega)
        (by rw [rT, if_pos (by omega)]) (by rw [rc, hc]; omega)
      simp only [e] at key
      exact key

theorem edges_pairUp (n : Nat) :
    ∀ ws : List Nat, ws.length = 2 * n →
      edges (pairUp ws) = ws.map .capture ∧ (pairUp ws).length = n := by
  induction n with
  | zero =>
    intro ws h
    have : ws = [] := List.eq_nil_of_length_eq_zero (by omega)
    subst this
    exact ⟨rfl, rfl⟩
  | succ n ih =>
    intro ws h
    match ws, h with
    | l :: hi :: rest, h =>
      simp only [List.length_cons] at h
      obtain ⟨e1, e2⟩ := ih rest (by omega)
      simp only [pairUp, edges, List.map_cons, List.length_cons, e1, e2]
      exact ⟨trivial, trivial⟩

/-- The run of a whole conversion with arbitrary widths: after the start-pulse
overflow, a first falling edge and 41 pulse pairs, the first of which is the
acknowledge, the decoder has stopped; the 40 later pairs each put one bit in
the buffer. -/
theorem run_all_edges (s0 : Mcu) (a : Nat) (p0 : Nat × Nat) (ps : List (Nat × Nat))
    (hlen : ps.length = 40) :
    (run (am2302_trigger_read s0)
      (.overflow :: .capture a :: edges (p0 :: ps))).TCCR1B = 0 ∧
    (run (am2302_trigger_read s0)
      (.overflow :: .capture a :: edges (p0 :: ps))).TCNT1 = 0 ∧
    (run (am2302_trigger_read s0)
      (.overflow :: .capture a :: edges (p0 :: ps))).am2302_bit_ctr = 0 ∧
    (run (am2302_trigger_read s0)
      (.overflow :: .capture a :: edges (p0 :: ps))).TIMSK1 &&& BV ICIE1 = 0 ∧
    (run (am2302_trigger_read s0)
      (.overflow :: .capture a :: edges (p0 :: ps))).TIMSK1 &&& BV TOIE1 = 0 ∧
    (run (am2302_trigger_read s0)
      (.overflow :: .capture a :: edges (p0 :: ps))).am2302_data
        = storeBits ⟨0, 0, 0, 0, 0⟩ 39 (ps.map (fun p => classify p.2)) := by
  obtain ⟨tT, tc, td, tI⟩ := trigger_read_fields s0
  obtain ⟨aT, ac, ad⟩ := run_acknowledge (am2302_trigger_read s0) a p0.1 p0.2 tT tI tc
  have hsplit : run (am2302_trigger_read s0) (.overflow :: .capture a :: edges (p0 :: ps))
      = run (run (am2302_trigger_read s0)
          [.overflow, .capture a, .capture p0.1, .capture p0.2]) (edges ps) := rfl
  rw [hsplit]
  have key := run_edges ps _ aT (by rw [ac, hlen]) (by rw [hlen])
  rw [ac, ad, td] at key
  exact key

/-- C16.  Start from the state left by am2302_trigger_read followed by the
overflow that ends the start pulse, and feed capture events with arbitrary
widths (they alternate between falling and rising edge, a falling one first).
After any number of them up to 82, that is after each of the first 41 falling
edges and the rising edges between them, am2302_get_result returns
am2302_ongoing.  After the 83rd, the 42nd falling edge, the bit counter is 0,
both interrupts are disabled, the timer is stopped, the counter is 0 and so
not 0xFFFF, and the buffer is the zeroed buffer with exactly 40 bits shifted
in: one for each of the falling edges 3 to 42, classified from its width. -/
theorem conversion_ends_at_42nd_falling_edge (charSigned : Bool) (s0 : Mcu) (temp : Int)
    (rh : Nat) :
    (∀ ws : List Nat, ws.length ≤ 82 →
      am2302_get_result charSigned
        (run (step (am2302_trigger_read s0) .overflow) (ws.map .capture)) temp rh
        = ⟨.am2302_ongoing, temp, rh⟩) ∧
    (∀ (a : Nat) (rest : List Nat), rest.length = 82 →
      (run (step (am2302_trigger_read s0) .overflow)
        ((a :: rest).map .capture)).am2302_bit_ctr = 0 ∧
      (run (step (am2302_trigger_read s0) .overflow)
        ((a :: rest).map .capture)).TIMSK1 &&& BV ICIE1 = 0 ∧
      (run (step (am2302_trigger_read s0) .overflow)
        ((a :: rest).map .capture)).TIMSK1 &&& BV TOIE1 = 0 ∧
      (run (step (am2302_trigger_read s0) .overflow)
        ((a :: rest).map .capture)).TCCR1B = 0 ∧
      (run (step (am2302_trigger_read s0) .overflow)
        ((a :: rest).map .capture)).TCNT1 ≠ 0xffff ∧
      (run (step (am2302_trigger_read s0) .overflow)
        ((a :: rest).map .capture)).am2302_data
          = storeBits ⟨0, 0, 0, 0, 0⟩ 39 (((pairUp rest).drop 1).map (fun p => classify p.2)) ∧
      (((pairUp rest).drop 1).map (fun p => classify p.2)).length = 40) := by
  obtain ⟨tT, tc, _, tI⟩ := trigger_read_fields s0
  obtain ⟨oT, oc, _⟩ := overflow_start_fields (am2302_trigger_read s0) tI
  constructor
  · intro ws hws
    obtain ⟨hT, _⟩ := listening_fields ws (step (am2302_trigger_read s0) .overflow) 0
      (by omega) (by rw [oT, tT]; rfl) (by rw [oc, tc])
    apply get_result_of_running
    rw [hT]
    split_ifs <;> decide
  · intro a rest hrest
    obtain ⟨he, hl⟩ := edges_pairUp 41 rest hrest
    match hp : pairUp rest, hl with
    | p0 :: ps, hl =>
      simp only [List.length_cons] at hl
      have hps : ps.length = 40 := by omega
      have hrun : run (step (am2302_trigger_read s0) .overflow) ((a :: rest).map .capture)
          = run (am2302_trigger_read s0) (.overflow :: .capture a :: edges (p0 :: ps)) := by
        rw [← hp, he]
        rfl
      obtain ⟨h1, h2, h3, h4, h5, h6⟩ := run_all_edges s0 a p0 ps hps
      rw [hrun]
      refine ⟨h3, h4, h5, h1, ?_, ?_, ?_⟩
      · rw [h2]
        decide
      · rw [h6]
        rfl
      · simp only [List.drop_succ_cons, List.drop_zero, List.length_map, hps]

theorem conversion_ends_at_42nd_falling_edge_witness :
    am2302_get_result true
      (run (step (am2302_trigger_read ⟨0, 0, 0, 0, 0, 0, 0, ⟨1, 2, 3, 4, 5⟩⟩) .overflow)
        ([5, 800, 1280].map .capture)) 5 7
      = ⟨.am2302_ongoing, 5, 7⟩ :=
  (conversion_ends_at_42nd_falling_edge true ⟨0, 0, 0, 0, 0, 0, 0, ⟨1, 2, 3, 4, 5⟩⟩ 5 7).1
    [5, 800, 1280] (by decide)

/-! ## Negative temperatures -/

theorem negative_val_sign (charSigned : Bool) (d2 d1 : Nat) (h2 : d2 < 256) (h1 : d1 < 256)
    (hneg : 128 ≤ d2) :
    (((promote charSigned d2 <<< 8) % 65536) ||| promote charSigned d1) &&& 0x8000 = 32768 := by
  have p2 := (promote_spec charSigned d2 h2).1
  have p1 := (promote_spec charSigned d1 h1).2.1
  have e : (promote charSigned d2 <<< 8) % 65536 = d2 * 256 := by
    rw [Nat.shiftLeft_eq]
    omega
  rw [e, Nat.and_distrib_right, and_0x8000 _ (by omega), and_0x8000 _ p1,
    if_neg (by omega)]
  split_ifs <;> decide

/-- Whenever the sign bit of byte 2 is set and the checksum comparison of the
code passes, that is the sum matches and no sign extension of the checksum
byte interferes (char unsigned, or byte 0 below 0x80), the result is
am2302_ok with temp = -32768, whatever the other 15 bits of the temperature
are. -/
theorem negative_decode_is_degenerate (charSigned : Bool) (s : Mcu) (temp : Int) (rh : Nat)
    (hstop : s.TCCR1B = 0) (hcnt : s.TCNT1 ≠ 0xffff)
    (h4 : s.am2302_data.d4 < 256) (h3 : s.am2302_data.d3 < 256)
    (h2 : s.am2302_data.d2 < 256) (h1 : s.am2302_data.d1 < 256)
    (hsum : (s.am2302_data.d4 + s.am2302_data.d3 + s.am2302_data.d2 + s.am2302_data.d1) % 256
      = s.am2302_data.d0)
    (hneg : 128 ≤ s.am2302_data.d2)
    (hs : charSigned = false ∨ s.am2302_data.d0 < 128) :
    (am2302_get_result charSigned s temp rh).result = .am2302_ok ∧
    (am2302_get_result charSigned s temp rh).temp = -32768 := by
  have p0 : promote charSigned s.am2302_data.d0 = s.am2302_data.d0 := by
    rcases hs with h | h
    · rw [h, promote_unsigned]
    · exact promote_small _ _ h
  rw [get_result_of_match charSigned s temp rh hstop hcnt h4 h3 h2 h1 (by rw [p0]; exact hsum),
    negative_val_sign charSigned _ _ h2 h1 hneg, if_pos (by decide)]
  constructor
  · rfl
  · show toInt16 ((65536 - 32768) % 65536) = -32768
    decide

/-- Signed char only.  The frame 01 F4 80 65 DA (50.0 %, sign bit set,
magnitude 0x0065) has a matching checksum, 0x01 + 0xF4 + 0x80 + 0x65 = 0x1DA,
and the top bit of byte 2 set.  In a build with plain char signed
am2302_get_result on the stopped timer returns am2302_crc and writes nothing,
not am2302_ok with temp = -32768: the checksum byte 0xDA is sign-extended
before the comparison. -/
theorem negative_frame_checksum_0xDA_is_crc :
    (0x01 + 0xF4 + 0x80 + 0x65) % 256 = 0xDA ∧
    am2302_get_result true ⟨0, 0, 0, 0, 0, 0, 0, ⟨0xDA, 0x65, 0x80, 0xF4, 0x01⟩⟩ 5 7
      = ⟨.am2302_crc, 5, 7⟩ := by
  decide

/-! ## Length of the start pulse -/

/-- C19 (what the code does).  After am2302_trigger_read the counter is 1280
ticks away from its overflow, from whatever state the function is called:
80 us at 16 ticks per microsecond, not the 16000 ticks of a 1 ms request
pulse. -/
theorem start_pulse_is_1280_ticks (s : Mcu) :
    65536 - (am2302_trigger_read s).TCNT1 = 1280 ∧
    65536 - (am2302_trigger_read s).TCNT1 ≠ 16000 ∧
    (1280 : Nat) = 80 * 16 ∧ (16000 : Nat) = 1000 * 16 := by
  have h : (am2302_trigger_read s).TCNT1 = 64256 := rfl
  rw [h]
  decide

/-! ## Gated runs: a result only for a complete frame -/

theorem not_fires_of_stopped (s : Mcu) (e : Event) (h : s.TCCR1B = 0) : fires s e = false := by
  cases e <;> simp [fires, h]

theorem gstep_of_not_fires (s : Mcu) (e : Event) (h : fires s e = false) :
    gstep s e = s ∧ storedBy s e = [] := by
  constructor
  · simp [gstep, h]
  · cases e with
    | capture w => simp [storedBy, h]
    | overflow => rfl

/-- The record kept by storedBy is what the handlers do to the buffer. -/
theorem gstep_data (s : Mcu) (e : Event) :
    (gstep s e).am2302_data =
      match storedBy s e with
      | [] => s.am2302_data
      | b :: _ => storeBit s.am2302_data s.am2302_bit_ctr b := by
  by_cases hf : fires s e = true
  · cases e with
    | overflow =>
      simp only [gstep, hf, if_true, storedBy]
      exact ovf_data s
    | capture w =>
      simp only [gstep, hf, if_true, storedBy, step, Bool.true_and]
      by_cases hfall : s.TCCR1B &&& BV ICES1 = 0
      · have h := capt_of_falling_data { s with TCNT1 := w } hfall
        rw [h]
        by_cases h40 : s.am2302_bit_ctr < 40 <;> simp [hfall, h40]
      · have h := capt_of_rising { s with TCNT1 := w } hfall
        rw [h]
        simp [hfall]
  · have hf2 : fires s e = false := by simpa using hf
    obtain ⟨h1, h2⟩ := gstep_of_not_fires s e hf2
    rw [h1, h2]

theorem or_capt_keeps_ovf (m : Nat) (h : m &&& BV TOIE1 ≠ 0) :
    (m ||| BV ICIE1) &&& BV TOIE1 ≠ 0 := by
  rw [Nat.and_distrib_right]
  have e : BV ICIE1 &&& BV TOIE1 = 0 := by decide
  rw [e, Nat.or_zero]
  exact h

theorem or_capt_sets_capt (m : Nat) : (m ||| BV ICIE1) &&& BV ICIE1 ≠ 0 := by
  rw [or_and_self]
  decide

theorem trigger_read_phase (s0 : Mcu) : Phase (am2302_trigger_read s0) [] := by
  obtain ⟨tT, tc, td, tI⟩ := trigger_read_fields s0
  refine Or.inl ⟨tT, tI, ?_, tc, rfl, td⟩
  show (andNot8 s0.TIMSK1 (BV ICIE1 ||| BV TOIE1) ||| BV TOIE1) &&& BV TOIE1 ≠ 0
  rw [or_and_self]
  decide

theorem storeBits_snoc (d : Data) (ctr : Nat) (t : List Bool) (b : Bool) :
    storeBits d ctr (t ++ [b]) = storeBit (storeBits d ctr t) (ctr - t.length) b := by
  rw [storeBits_append]
  rfl

theorem phase_step_driving (s : Mcu) (e : Event) (hT : s.TCCR1B = 1)
    (hI : s.TIMSK1 &&& BV ICIE1 = 0) (hO : s.TIMSK1 &&& BV TOIE1 ≠ 0)
    (hc : s.am2302_bit_ctr = 41) (hd : s.am2302_data = ⟨0, 0, 0, 0, 0⟩) :
    Phase (gstep s e) ([] ++ storedBy s e) := by
  cases e with
  | capture w =>
    have hf : fires s (.capture w) = false := by simp [fires, hI]
    obtain ⟨h1, h2⟩ := gstep_of_not_fires s _ hf
    rw [h1, h2]
    exact Or.inl ⟨hT, hI, hO, hc, rfl, hd⟩
  | overflow =>
    have hf : fires s .overflow = true := by simp [fires, hT, hO]
    simp only [gstep, hf, if_true, storedBy, step, TIMER1_OVF_vect]
    rw [if_pos hI]
    refine Or.inr (Or.inl ⟨Or.inl hT, or_capt_sets_capt _, or_capt_keeps_ovf _ hO, ?_, ?_, ?_⟩)
    · show s.am2302_bit_ctr ≤ 41
      omega
    · show ([] : List Bool).length = 39 - s.am2302_bit_ctr
      rw [hc]
      rfl
    · show s.am2302_data = storeBits ⟨0, 0, 0, 0, 0⟩ 39 []
      rw [hd]
      rfl

theorem phase_step_listening (s : Mcu) (t : List Bool) (e : Event)
    (hT : s.TCCR1B = 1 ∨ s.TCCR1B = 65)
    (hI : s.TIMSK1 &&& BV ICIE1 ≠ 0) (hO : s.TIMSK1 &&& BV TOIE1 ≠ 0)
    (hc : s.am2302_bit_ctr ≤ 41) (ht : t.length = 39 - s.am2302_bit_ctr)
    (hd : s.am2302_data = storeBits ⟨0, 0, 0, 0, 0⟩ 39 t) :
    Phase (gstep s e) (t ++ storedBy s e) := by
  have hrun : s.TCCR1B ≠ 0 := by
    rcases hT with h | h <;> rw [h] <;> decide
  cases e with
  | overflow =>
    have hf : fires s .overflow = true := by simp [fires, hrun, hO]
    simp only [gstep, hf, if_true, storedBy, step, TIMER1_OVF_vect]
    rw [if_neg hI]
    exact Or.inr (Or.inr (Or.inr ⟨rfl, rfl, andNot8_irqs_capt _, andNot8_irqs_ovf _⟩))
  | capture w =>
    have hf : fires s (.capture w) = true := by simp [fires, hrun, hI]
    simp only [gstep, hf, if_true, storedBy, step, Bool.true_and]
    rcases hT with hT | hT
    · have hfall : s.TCCR1B &&& BV ICES1 = 0 := by
        rw [hT]
        decide
      rw [capt_falling { s with TCNT1 := w } hT]
      simp only [hfall, decide_True, Bool.true_and]
      by_cases h0 : s.am2302_bit_ctr = 0
      · have h40 : s.am2302_bit_ctr < 40 := by omega
        rw [if_pos h0]
        simp only [h40, decide_True, if_true]
        refine Or.inr (Or.inr (Or.inl
          ⟨rfl, rfl, andNot8_irqs_capt _, andNot8_irqs_ovf _, h0, ?_, ?_⟩))
        · rw [List.length_append, ht, h0]
          rfl
        · show storeBit s.am2302_data 0 (classify w) = _
          rw [storeBits_snoc, ht, h0, hd]
      · rw [if_neg h0]
        by_cases h40 : s.am2302_bit_ctr < 40
        · simp only [h40, decide_True, if_true]
          refine Or.inr (Or.inl ⟨Or.inr rfl, hI, hO, ?_, ?_, ?_⟩)
          · show s.am2302_bit_ctr - 1 ≤ 41
            omega
          · show (t ++ [classify w]).length = 39 - (s.am2302_bit_ctr - 1)
            rw [List.length_append, ht]
            simp only [List.length_singleton]
            omega
          · show storeBit s.am2302_data s.am2302_bit_ctr (classify w) = _
            rw [storeBits_snoc, ht, hd]
            congr 1
            omega
        · simp only [h40, decide_False, Bool.and_false, Bool.false_eq_true, if_false,
            List.append_nil]
          refine Or.inr (Or.inl ⟨Or.inr rfl, hI, hO, ?_, ?_, hd⟩)
          · show s.am2302_bit_ctr - 1 ≤ 41
            omega
          · show t.length = 39 - (s.am2302_bit_ctr - 1)
            omega
    · have hrise : ¬ (s.TCCR1B &&& BV ICES1 = 0) := by
        rw [hT]
        decide
      rw [capt_rising { s with TCNT1 := w } hT]
      simp only [hrise, decide_False, Bool.false_and, Bool.false_eq_true, if_false,
        List.append_nil, Bool.and_false]
      exact Or.inr (Or.inl ⟨Or.inl rfl, hI, hO, hc, ht, hd⟩)

theorem phase_step (s : Mcu) (t : List Bool) (e : Event) (h : Phase s t) :
    Phase (gstep s e) (t ++ storedBy s e) := by
  rcases h with ⟨hT, hI, hO, hc, ht, hd⟩ | ⟨hT, hI, hO, hc, ht, hd⟩ |
    ⟨hT, hC, hI, hO, hc, ht, hd⟩ | ⟨hT, hC, hI, hO⟩
  · subst ht
    exact phase_step_driving s e hT hI hO hc hd
  · exact phase_step_listening s t e hT hI hO hc ht hd
  · obtain ⟨h1, h2⟩ := gstep_of_not_fires s e (not_fires_of_stopped s e hT)
    rw [h1, h2, List.append_nil]
    exact Or.inr (Or.inr (Or.inl ⟨hT, hC, hI, hO, hc, ht, hd⟩))
  · obtain ⟨h1, h2⟩ := gstep_of_not_fires s e (not_fires_of_stopped s e hT)
    rw [h1, h2, List.append_nil]
    exact Or.inr (Or.inr (Or.inr ⟨hT, hC, hI, hO⟩))

theorem phase_grun (es : List Event) :
    ∀ (s : Mcu) (t : List Bool), Phase s t → Phase (grun s t es).1 (grun s t es).2 := by
  induction es with
  | nil => intro s t h; exact h
  | cons e es ih =>
    intro s t h
    exact ih _ _ (phase_step s t e h)

/-- C20.  Take any state reached from the state left by am2302_trigger_read
through overflow and capture events with arbitrary widths, each handled only
if the timer runs and its interrupt is enabled.  (1) If am2302_get_result
returns am2302_ok or am2302_crc there, the bit counter is 0, exactly 40
payload bits have been stored since the trigger, and the buffer is the zeroed
buffer with these 40 bits shifted in.  (2) If the timer is stopped there, both
decoder interrupts are disabled and no further event changes the state.
(3) The record of stored bits is faithful: an event changes the buffer exactly
by storing the bit recorded for it. -/
theorem result_only_for_complete_frame (charSigned : Bool) (s0 : Mcu) (es : List Event)
    (temp : Int) (rh : Nat) :
    (((am2302_get_result charSigned (grun (am2302_trigger_read s0) [] es).1 temp rh).result
        = .am2302_ok ∨
      (am2302_get_result charSigned (grun (am2302_trigger_read s0) [] es).1 temp rh).result
        = .am2302_crc) →
      (grun (am2302_trigger_read s0) [] es).1.am2302_bit_ctr = 0 ∧
      (grun (am2302_trigger_read s0) [] es).2.length = 40 ∧
      (grun (am2302_trigger_read s0) [] es).1.am2302_data
        = storeBits ⟨0, 0, 0, 0, 0⟩ 39 (grun (am2302_trigger_read s0) [] es).2) ∧
    ((grun (am2302_trigger_read s0) [] es).1.TCCR1B = 0 →
      (grun (am2302_trigger_read s0) [] es).1.TIMSK1 &&& BV ICIE1 = 0 ∧
      (grun (am2302_trigger_read s0) [] es).1.TIMSK1 &&& BV TOIE1 = 0 ∧
      ∀ e : Event, gstep (grun (am2302_trigger_read s0) [] es).1 e
        = (grun (am2302_trigger_read s0) [] es).1) ∧
    (∀ (s : Mcu) (e : Event),
      (gstep s e).am2302_data =
        match storedBy s e with
        | [] => s.am2302_data
        | b :: _ => storeBit s.am2302_data s.am2302_bit_ctr b) := by
  have hp := phase_grun es _ _ (trigger_read_phase s0)
  generalize grun (am2302_trigger_read s0) [] es = r at hp
  refine ⟨?_, ?_, gstep_data⟩
  · intro hres
    rcases hp with ⟨hT, _⟩ | ⟨hT, _⟩ | ⟨_, _, _, _, hc, ht, hd⟩ | ⟨hT, hC, _⟩
    · rw [get_result_of_running charSigned r.1 temp rh (by rw [hT]; decide)] at hres
      simp at hres
    · rw [get_result_of_running charSigned r.1 temp rh
        (by rcases hT with h | h <;> rw [h] <;> decide)] at hres
      simp at hres
    · exact ⟨hc, ht, hd⟩
    · rw [get_result_of_sentinel charSigned r.1 temp rh hT hC] at hres
      simp at hres
  · intro hstop
    rcases hp with ⟨hT, _⟩ | ⟨hT, _⟩ | ⟨_, _, hI, hO, _⟩ | ⟨_, _, hI, hO⟩
    · rw [hT] at hstop
      exact absurd hstop (by decide)
    · rcases hT with h | h <;> rw [h] at hstop <;> exact absurd hstop (by decide)
    · exact ⟨hI, hO, fun e => (gstep_of_not_fires r.1 e (not_fires_of_stopped r.1 e hstop)).1⟩
    · exact ⟨hI, hO, fun e => (gstep_of_not_fires r.1 e (not_fires_of_stopped r.1 e hstop)).1⟩

set_option maxRecDepth 100000 in
theorem result_only_for_complete_frame_witness :
    (grun (am2302_trigger_read ⟨0, 0, 0, 0, 0, 0, 0, ⟨1, 2, 3, 4, 5⟩⟩) []
      (conversion 5 800 (fun _ => 800) (frame 653 231))).2.length = 40 :=
  ((result_only_for_complete_frame true ⟨0, 0, 0, 0, 0, 0, 0, ⟨1, 2, 3, 4, 5⟩⟩
    (conversion 5 800 (fun _ => 800) (frame 653 231)) 5 7).1 (Or.inl (by decide))).2.1

/-! ## Result decoder and round trip with unsigned char -/

/-- C1.  Round trip through the whole decoder, char unsigned.  For every
humidity h and temperature t in 0..999, let the frame be the bytes h >> 8,
h & 0xFF, t >> 8, t & 0xFF and their sum modulo 256.  From any state,
am2302_trigger_read, the overflow that ends the start pulse, the falling edge
that starts the acknowledge (any width), a rising edge, the falling edge after
the 1280 tick acknowledge high period, and then for each of the 40 frame bits,
most significant bit of the first byte first, a rising edge (any width) and a
falling edge after 448 ticks for a 0 and 1120 ticks for a 1, leave a state in
which am2302_get_result returns am2302_ok and writes rh = h and temp = t. -/
theorem roundtrip_through_decoder (s0 : Mcu) (ack0 ackLow : Nat) (lo : Nat → Nat)
    (temp : Int) (rh : Nat) (h t : Nat) (hh : h < 1000) (ht : t < 1000) :
    am2302_get_result false
      (run (am2302_trigger_read s0) (conversion ack0 ackLow lo (frame h t))) temp rh
      = ⟨.am2302_ok, (t : Int), h⟩ :=
  roundtrip_without_sign_extension false s0 ack0 ackLow lo temp rh h t (by omega) (by omega)
    (Or.inl rfl)

theorem roundtrip_through_decoder_witness :
    frame 653 231 = [0x02, 0x8D, 0x00, 0xE7, 0x76] ∧
    am2302_get_result false
      (run (am2302_trigger_read ⟨65, 7, 0xff, 0, 0, 0, 3, ⟨1, 2, 3, 4, 5⟩⟩)
        (conversion 5 800 (fun _ => 800) (frame 653 231))) 0 0
      = ⟨.am2302_ok, 231, 653⟩ :=
  ⟨by decide,
    roundtrip_through_decoder ⟨65, 7, 0xff, 0, 0, 0, 3, ⟨1, 2, 3, 4, 5⟩⟩ 5 800 (fun _ => 800)
      0 0 653 231 (by decide) (by decide)⟩

/-- C2.  Unpacking on success, char unsigned.  For every buffer of byte
values, with the timer stopped (TCCR1B = 0), the counter not 0xFFFF and the
sum of bytes 4..1 modulo 256 equal to byte 0, am2302_get_result returns
am2302_ok and writes rh = byte 4 * 256 + byte 3, and, when the top bit of
byte 2 is clear, temp = byte 2 * 256 + byte 1.  Bytes 3 and 1 may be 0x80 or
above. -/
theorem unpack_on_success (s : Mcu) (temp : Int) (rh : Nat)
    (hstop : s.TCCR1B = 0) (hcnt : s.TCNT1 ≠ 0xffff)
    (h4 : s.am2302_data.d4 < 256) (h3 : s.am2302_data.d3 < 256)
    (h2 : s.am2302_data.d2 < 256) (h1 : s.am2302_data.d1 < 256)
    (hsum : (s.am2302_data.d4 + s.am2302_data.d3 + s.am2302_data.d2 + s.am2302_data.d1) % 256
      = s.am2302_data.d0) :
    (am2302_get_result false s temp rh).result = .am2302_ok ∧
    (am2302_get_result false s temp rh).rh = s.am2302_data.d4 * 256 + s.am2302_data.d3 ∧
    (s.am2302_data.d2 < 128 →
      (am2302_get_result false s temp rh).temp
        = ((s.am2302_data.d2 * 256 + s.am2302_data.d1 : Nat) : Int)) := by
  rw [get_result_unpack false s temp rh hstop hcnt h4 h3 h2 h1 hsum (Or.inl rfl)]
  refine ⟨rfl, rfl, ?_⟩
  intro hpos
  simp only [hpos, if_true]

theorem unpack_on_success_witness :
    (am2302_get_result false ⟨0, 0, 0, 0, 0, 0, 0, ⟨0x76, 0xE7, 0x00, 0x8D, 0x02⟩⟩ 5 7).rh
      = 0x02 * 256 + 0x8D ∧
    (0x02 * 256 + 0x8D : Nat) = 653 :=
  ⟨(unpack_on_success ⟨0, 0, 0, 0, 0, 0, 0, ⟨0x76, 0xE7, 0x00, 0x8D, 0x02⟩⟩ 5 7 rfl
      (by decide) (by decide) (by decide) (by decide) (by decide) (by decide)).2.1,
    by decide⟩

/-- C4.  Checksum decision, char unsigned.  For every buffer of byte values,
with the timer stopped and the counter not 0xFFFF, am2302_get_result returns
am2302_crc if and only if the sum of bytes 4..1 modulo 256 differs from
byte 0, and am2302_ok if and only if it equals byte 0; a checksum byte of 0x80
or above is no exception. -/
theorem checksum_decision (s : Mcu) (temp : Int) (rh : Nat)
    (hstop : s.TCCR1B = 0) (hcnt : s.TCNT1 ≠ 0xffff)
    (h4 : s.am2302_data.d4 < 256) (h3 : s.am2302_data.d3 < 256)
    (h2 : s.am2302_data.d2 < 256) (h1 : s.am2302_data.d1 < 256) :
    ((am2302_get_result false s temp rh).result = .am2302_crc ↔
      (s.am2302_data.d4 + s.am2302_data.d3 + s.am2302_data.d2 + s.am2302_data.d1) % 256
        ≠ s.am2302_data.d0) ∧
    ((am2302_get_result false s temp rh).result = .am2302_ok ↔
      (s.am2302_data.d4 + s.am2302_data.d3 + s.am2302_data.d2 + s.am2302_data.d1) % 256
        = s.am2302_data.d0) :=
  get_result_crc_iff_unsigned s temp rh hstop hcnt h4 h3 h2 h1

theorem checksum_decision_witness :
    (am2302_get_result false ⟨0, 0, 0, 0, 0, 0, 0, ⟨0x82, 0x70, 0x00, 0x10, 0x02⟩⟩ 5 7).result
      = .am2302_ok :=
  (checksum_decision ⟨0, 0, 0, 0, 0, 0, 0, ⟨0x82, 0x70, 0x00, 0x10, 0x02⟩⟩ 5 7 rfl
    (by decide) (by decide) (by decide) (by decide) (by decide)).2.2 (by decide)

/-- C18.  Degenerate negative decode, char unsigned.  For every buffer of byte
values with the timer stopped, the counter not 0xFFFF, a matching checksum and
the top bit of byte 2 set, am2302_get_result returns am2302_ok and writes the
same temp = -32768 whatever the 15 magnitude bits are: the value is masked
with 0x8000, which keeps the sign bit and drops the magnitude. -/
theorem negative_decode_degenerate (s : Mcu) (temp : Int) (rh : Nat)
    (hstop : s.TCCR1B = 0) (hcnt : s.TCNT1 ≠ 0xffff)
    (h4 : s.am2302_data.d4 < 256) (h3 : s.am2302_data.d3 < 256)
    (h2 : s.am2302_data.d2 < 256) (h1 : s.am2302_data.d1 < 256)
    (hsum : (s.am2302_data.d4 + s.am2302_data.d3 + s.am2302_data.d2 + s.am2302_data.d1) % 256
      = s.am2302_data.d0)
    (hneg : 128 ≤ s.am2302_data.d2) :
    (am2302_get_result false s temp rh).result = .am2302_ok ∧
    (am2302_get_result false s temp rh).temp = -32768 :=
  negative_decode_is_degenerate false s temp rh hstop hcnt h4 h3 h2 h1 hsum hneg (Or.inl rfl)

theorem negative_decode_degenerate_witness :
    (am2302_get_result false ⟨0, 0, 0, 0, 0, 0, 0, ⟨0xDA, 0x65, 0x80, 0xF4, 0x01⟩⟩ 5 7).result
      = .am2302_ok ∧
    (am2302_get_result false ⟨0, 0, 0, 0, 0, 0, 0, ⟨0xDA, 0x65, 0x80, 0xF4, 0x01⟩⟩ 5 7).temp
      = -32768 :=
  negative_decode_degenerate ⟨0, 0, 0, 0, 0, 0, 0, ⟨0xDA, 0x65, 0x80, 0xF4, 0x01⟩⟩ 5 7 rfl
    (by decide) (by decide) (by decide) (by decide) (by decide) (by decide) (by decide)

end AM2302
